import Mathlib

/-!
Verification of the airbitrage buy-intent discovery pipeline.

This file gives a shallow embedding, in Lean, of the opportunity-discovery
pipeline of the repository:

* the source matcher (`sourcer.ts`, "brute force mode"): `findSourcesForIntents`,
  `searchForItem`, `calculateFees`, `calculateConfidence`, `detectMarketplace`,
  `deduplicateListings`;
* the buy-intent harvester (`harvester.ts`): `harvestBuyIntents`,
  `parseTavilyResult`, `parseHWFormat`, `extractBestPriceFromBody`,
  `extractLocation`, `redditPostNumericId`, `filterByRedditId`;
* the pipeline runner (`runner.ts`): `runBuyerIntentPipeline`,
  `parseOpportunities`, `intentKey`.

Conventions of the embedding:

* All prices are integer cents (`ℤ`), as in the source.  JS `Math.round(a / b)`
  for integers with `b > 0` equals `⌊a/b + 1/2⌋ = (2a + b).fdiv (2b)`, captured
  by `jsRoundDiv`; fee and percentage arithmetic is carried out on exact
  integers rather than floating point.
* External effects (Tavily fetches, the Claude call, the budget check, usage
  recording) are parameters of the embedding: each is an `Except`-valued input
  standing for "the awaited call either returned this value or threw".
* `extractPrice` and `isListingUrl` are imported by the source from
  `@/agents/scout/sources`, a module not included in the artifact; the embedding
  takes them as function parameters (`ep`, `ilu`), and a spec-modelled
  `specExtractPrice` is provided for concrete instantiations.
* JS `Array.prototype.sort` is a stable sort; it is modelled by `stableSort`, a
  stable insertion sort parameterised by the strict "comes before" relation of
  the JS comparator.
* Wall-clock durations (`durationMs`) are not modelled and are fixed to 0.
-/

/-! ### JS number and string helpers -/

/-- JS `Math.round (a / b)` for integers `a`, `b` with `b > 0`:
`⌊a/b + 1/2⌋`, computed as floor division `(2a + b).fdiv (2b)`. -/
def jsRoundDiv (a b : ℤ) : ℤ := Int.fdiv (2 * a + b) (2 * b)

/-- Substring test on character lists (JS `String.prototype.includes`). -/
def containsSub (pat : List Char) : List Char → Bool
  | [] => pat.isEmpty
  | c :: rest => pat.isPrefixOf (c :: rest) || containsSub pat rest

/-- Lower-cased character list of a string (JS `toLowerCase`, ASCII range). -/
def lowerChars (s : String) : List Char := s.toList.map Char.toLower

/-- Case-insensitive substring test: JS `/pat/i.test(s)` for a literal `pat`
given here already lower-cased. -/
def containsInsens (patLower : String) (s : String) : Bool :=
  containsSub patLower.toList (lowerChars s)

/-- JS whitespace class `\s` (common members). -/
def isJsSpace (c : Char) : Bool :=
  c = ' ' || c = '\t' || c = '\n' || c = '\r' || c = '\x0b' || c = '\x0c'

/-- Trim JS whitespace from both ends (JS `String.prototype.trim`). -/
def jsTrim (cs : List Char) : List Char :=
  ((cs.dropWhile isJsSpace).reverse.dropWhile isJsSpace).reverse

/-- Stable insertion of `x` into `l`: `x` is placed before the first element
that does not strictly precede it.  `lt y x` means "y comes strictly before x"
in the JS comparator's order. -/
def stableInsert (lt : α → α → Bool) (x : α) : List α → List α
  | [] => [x]
  | y :: ys => if lt y x then y :: stableInsert lt x ys else x :: y :: ys

/-- Stable sort by the strict relation `lt` — the order produced by JS
`Array.prototype.sort` with a consistent comparator (stable since ES2019). -/
def stableSort (lt : α → α → Bool) : List α → List α
  | [] => []
  | x :: xs => stableInsert lt x (stableSort lt xs)

theorem stableInsert_perm (lt : α → α → Bool) (x : α) (l : List α) :
    (stableInsert lt x l).Perm (x :: l) := by
  induction l with
  | nil => simp [stableInsert]
  | cons y ys ih =>
    by_cases h : lt y x
    · simpa [stableInsert, h] using ((ih.cons y).trans (List.Perm.swap x y ys))
    · simp [stableInsert, h]

theorem stableSort_perm (lt : α → α → Bool) (l : List α) :
    (stableSort lt l).Perm l := by
  induction l with
  | nil => simp [stableSort]
  | cons x xs ih =>
    exact (stableInsert_perm lt x (stableSort lt xs)).trans (ih.cons x)

theorem mem_stableSort {lt : α → α → Bool} {l : List α} {a : α} :
    a ∈ stableSort lt l ↔ a ∈ l :=
  (stableSort_perm lt l).mem_iff

/-! ### Shared data model (harvester.ts types) -/

/-- `BuyIntent` from `harvester.ts`. -/
structure BuyIntent where
  title : String
  itemWanted : String
  maxPrice : ℤ            -- cents; 0 means "no price stated"
  hasStatedPrice : Bool
  location : String
  buyerUsername : String
  buyerTradeCount : ℤ
  source : String          -- "r/hardwareswap", ...
  postUrl : String
  postAge : ℤ              -- hours since posted
  created : ℤ              -- unix timestamp
deriving DecidableEq, Repr

/-- `SourceDiagnostic` from `harvester.ts`; `status` is one of
`"success" | "empty" | "error"`. -/
structure SourceDiagnostic where
  source : String
  status : String
  itemCount : ℕ
  durationMs : ℤ
  errMsg : Option String
deriving DecidableEq, Repr

/-- One entry of a Tavily search response, as consumed by both the harvester
and the sourcer (`{url, title?, content?, published_date?}`). -/
structure TavilyItem where
  url : String
  title : Option String
  content : Option String
  publishedDate : Option String
deriving DecidableEq, Repr

/-! ### Sourcer data model (sourcer.ts, brute force mode) -/

/-- `SourceListing` from `sourcer.ts`. -/
structure SourceListing where
  title : String
  price : ℤ               -- cents
  url : String
  marketplace : String
deriving DecidableEq, Repr

/-- The fee record carried by a `MatchedOpportunity`. -/
structure FeeBreakdown where
  paypalFee : ℤ
  shippingCost : ℤ
  total : ℤ
deriving DecidableEq, Repr

/-- `MatchedOpportunity` from `sourcer.ts`. -/
structure MatchedOpportunity where
  buyIntent : BuyIntent
  sourceListing : SourceListing
  estimatedProfit : ℤ      -- cents
  fees : FeeBreakdown
  confidence : ℤ
  estimatedMarketPrice : Option ℤ
deriving DecidableEq, Repr

/-- `SourceResult` from `sourcer.ts`. -/
structure SourceResult where
  matched : List MatchedOpportunity
  diagnostics : List SourceDiagnostic
  tavilyCallCount : ℕ
deriving DecidableEq, Repr

/-! ### Sourcer configuration -/

def MIN_PROFIT_CENTS : ℤ := 1500
def MAX_INTENTS_TO_SEARCH : ℕ := 50

/-- Shipping estimate by source subreddit category (cents). -/
def SHIPPING_ESTIMATES : List (String × ℤ) :=
  [("r/hardwareswap", 1500), ("r/mechmarket", 1000), ("r/photomarket", 1500),
   ("r/watchexchange", 1200), ("r/appleswap", 1500), ("r/AVexchange", 1500),
   ("r/gamesale", 800), ("r/homelabsales", 2000), ("r/Knife_Swap", 800),
   ("r/Pen_Swap", 600), ("r/GunAccessoriesForSale", 1200), ("r/comicswap", 600),
   ("r/funkoswap", 800), ("r/vinylcollectors", 800)]

/-! ### Fee calculation (sourcer.ts `calculateFees`) -/

/-- PayPal Goods & Services fee (3.49% of the sell price, rounded, plus $0.49)
plus the venue-keyed shipping estimate (default 1500 when the venue is not in
the table; `SHIPPING_ESTIMATES[source] || 1500`). -/
def calculateFees (sellPrice : ℤ) (source : String) : FeeBreakdown :=
  let paypalFee := jsRoundDiv (sellPrice * 349) 10000 + 49
  let shippingCost := (SHIPPING_ESTIMATES.lookup source).getD 1500
  { paypalFee := paypalFee, shippingCost := shippingCost,
    total := paypalFee + shippingCost }

/-! ### Confidence scoring (sourcer.ts `calculateConfidence`)

The source computes `profitPercent = sellPrice > 0 ? (profit / sellPrice) * 100 : 0`
and compares it against 30 / 20 / 10; here the comparisons are carried out in
cross-multiplied integer form (`profitPercent > k ↔ k * sellPrice < 100 * profit`
when `sellPrice > 0`; when `sellPrice ≤ 0` the source's `profitPercent` is 0 and
all three comparisons fail). -/

/-- Profit-margin block (`profitPercent > 30 / 20 / 10`). -/
def profitBonus (sellPrice profit : ℤ) : ℤ :=
  if 0 < sellPrice ∧ 30 * sellPrice < 100 * profit then 15
  else if 0 < sellPrice ∧ 20 * sellPrice < 100 * profit then 10
  else if 0 < sellPrice ∧ 10 * sellPrice < 100 * profit then 5
  else 0

/-- Buyer-reputation block. -/
def repBonus (buyerTradeCount : ℤ) : ℤ :=
  if 50 ≤ buyerTradeCount then 10
  else if 20 ≤ buyerTradeCount then 7
  else if 5 ≤ buyerTradeCount then 3
  else 0

/-- Post-freshness block. -/
def ageBonus (postAge : ℤ) : ℤ :=
  if postAge ≤ 4 then 10
  else if postAge ≤ 12 then 5
  else if postAge ≤ 24 then 2
  else 0

/-- Known-marketplace block. -/
def marketplaceBonus (marketplace : String) : ℤ :=
  (if marketplace ≠ "Other" then 5 else 0) +
  (if marketplace = "eBay" ∨ marketplace = "Amazon" then 5 else 0)

/-- Stated-price block. -/
def statedBonus (hasStatedPrice : Bool) : ℤ := if hasStatedPrice then 10 else 0

def calculateConfidence (intent : BuyIntent) (listing : SourceListing)
    (profit : ℤ) : ℤ :=
  -- JS: const sellPrice = intent.maxPrice || profit + listing.price  (0 is falsy)
  let sellPrice : ℤ :=
    if intent.maxPrice = 0 then profit + listing.price else intent.maxPrice
  min 95 (max 15
    (45 + profitBonus sellPrice profit + repBonus intent.buyerTradeCount +
     ageBonus intent.postAge + marketplaceBonus listing.marketplace +
     statedBonus intent.hasStatedPrice))

/-! ### Marketplace detection and listing deduplication (sourcer.ts) -/

def detectMarketplace (url : String) : String :=
  let lower := lowerChars url
  if containsSub "ebay.com".toList lower then "eBay"
  else if containsSub "amazon.com".toList lower then "Amazon"
  else if containsSub "mercari.com".toList lower then "Mercari"
  else if containsSub "swappa.com".toList lower then "Swappa"
  else if containsSub "walmart.com".toList lower then "Walmart"
  else if containsSub "bestbuy.com".toList lower then "Best Buy"
  else if containsSub "target.com".toList lower then "Target"
  else if containsSub "newegg.com".toList lower then "Newegg"
  else if containsSub "bhphotovideo.com".toList lower then "B&H"
  else if containsSub "adorama.com".toList lower then "Adorama"
  else if containsSub "reverb.com".toList lower then "Reverb"
  else if containsSub "discogs.com".toList lower then "Discogs"
  else if containsSub "stockx.com".toList lower then "StockX"
  else "Other"

/-- Dedup key `` `${marketplace}:${Math.round(price / 100)}` `` — modelled as a
pair (the marketplace labels contain no `:`, so the template string is
injective in the pair). -/
def dedupKey (l : SourceListing) : String × ℤ := (l.marketplace, jsRoundDiv l.price 100)

/-- Keep-first deduplication over a `Map` keyed by `dedupKey`
(insertion order preserved, as `Array.from(map.values())` does). -/
def dedupGo (seen : List (String × ℤ)) : List SourceListing → List SourceListing
  | [] => []
  | l :: rest =>
    if dedupKey l ∈ seen then dedupGo seen rest
    else l :: dedupGo (dedupKey l :: seen) rest

def deduplicateListings (listings : List SourceListing) : List SourceListing :=
  dedupGo [] listings

/-! ### Currency-amount scanning

Models the global regex `/\$\s?([\d,]+(?:\.\d{2})?)/g` together with
`parseFloat(match[1].replace(/,/g, ''))`, producing integer cents directly
(a parsed amount of `d` dollars and `cc` decimal cents is `100*d + cc` cents,
so the source's later `Math.round(num * 100)` is the identity on these values).
`none` in the produced list models a `NaN` parse (a capture consisting of
commas only). -/

def digitVal (c : Char) : ℕ := c.toNat - 48

/-- Cents value of one capture `[\d,]+(\.\d\d)?` after comma removal;
`none` models `NaN`. -/
def captureCents (run : List Char) (dec : Option (Char × Char)) : Option ℤ :=
  let ds := run.filter (fun c => c ≠ ',')
  match ds, dec with
  | [], none => none
  | _, _ =>
    let intPart : ℕ := ds.foldl (fun acc c => acc * 10 + digitVal c) 0
    let decPart : ℕ :=
      match dec with
      | some (d1, d2) => digitVal d1 * 10 + digitVal d2
      | none => 0
    some ((intPart * 100 + decPart : ℕ) : ℤ)

/-- Attempt the regex tail `\s?([\d,]+(?:\.\d{2})?)` at the position right
after a `$`; on success returns the capture's cents value and the remaining
input after the whole match. -/
def tryDollarMatch (cs : List Char) : Option (Option ℤ × List Char) :=
  let cs1 :=
    match cs with
    | c :: t => if isJsSpace c then t else c :: t
    | [] => []
  let run := cs1.takeWhile (fun c => c.isDigit || c = ',')
  if run.isEmpty then none
  else
    let rest := cs1.drop run.length
    match rest with
    | '.' :: d1 :: d2 :: t =>
      if d1.isDigit && d2.isDigit then some (captureCents run (some (d1, d2)), t)
      else some (captureCents run none, rest)
    | _ => some (captureCents run none, rest)

/-- One pass of the global regex: scan left to right, matching at each `$`,
resuming after each full match.  The fuel argument (initially the input
length) only serves termination: every step consumes at least one character. -/
def scanDollarCents : ℕ → List Char → List (Option ℤ)
  | 0, _ => []
  | _ + 1, [] => []
  | fuel + 1, c :: rest =>
    if c = '$' then
      match tryDollarMatch rest with
      | some (v, remaining) => v :: scanDollarCents fuel remaining
      | none => scanDollarCents fuel rest
    else scanDollarCents fuel rest

def scanDollars (cs : List Char) : List (Option ℤ) := scanDollarCents cs.length cs

/-! ### Body price extraction (harvester.ts `extractBestPriceFromBody`) -/

/-- Scan the first 2000 characters of the body for `$` amounts, keep the
plausible ones (`15 <= num < 50000` dollars, i.e. `1500 <= cents < 5000000`),
and return the maximum (`Math.max(...prices)`), or `none` if there are none. -/
def extractBestPriceFromBody (selftext : String) : Option ℤ :=
  let text := selftext.toList.take 2000
  let prices := (scanDollars text).filterMap (fun v? =>
    match v? with
    | some c => if 1500 ≤ c ∧ c < 5000000 then some c else none
    | none => none)
  match prices with
  | [] => none
  | p :: ps => some (ps.foldl max p)

/-- Modelled from the spec: `extractPrice` is imported by both the harvester
and the sourcer from `@/agents/scout/sources`, a module not present in the
artifact.  Per the spec it scans text for currency-amount patterns, discards
amounts outside a sane absolute range, and selects the maximum plausible
amount (in cents).  It is modelled here by the same currency-amount scan the
harvester itself uses for body text. -/
def specExtractPrice (text : String) : Option ℤ := extractBestPriceFromBody text

/-! ### Marketplace search (sourcer.ts `searchForItem`, post-fetch part)

The Tavily HTTP call itself is a parameter (the sourcer's caller passes one
`Except` per call); this function models everything `searchForItem` does with
the response's `results` array.  `ep` models the imported `extractPrice`,
`ilu` the imported `isListingUrl`. -/

def searchListings (ep : String → Option ℤ) (ilu : String → Bool)
    (items : List TavilyItem) : List SourceListing :=
  deduplicateListings (items.filterMap (fun r =>
    let marketplace := detectMarketplace r.url
    -- Accept listing URLs and also known marketplaces
    if ¬ ilu r.url ∧ marketplace = "Other" then none
    else
      let text := r.title.getD "" ++ " " ++ r.content.getD ""
      match ep text with
      | none => none            -- !price
      | some price =>
        if price ≤ 0 then none  -- !price (price 0 is falsy) or price <= 0
        else if price < 500 ∨ price > 10000000 then none
        else some { title := (r.title.getD "").take 120, price := price,
                    url := r.url, marketplace := marketplace }))

/-! ### Matching strategies (sourcer.ts `findSourcesForIntents` inner loops) -/

/-- Strategy A (priced): keep listings strictly cheaper than the buyer's
stated ceiling whose profit after fees meets the minimum. -/
def pricedMatches (intent : BuyIntent) (listings : List SourceListing) :
    List MatchedOpportunity :=
  listings.filterMap (fun listing =>
    if intent.maxPrice ≤ listing.price then none   -- listing.price >= intent.maxPrice: not cheaper
    else
      let fees := calculateFees intent.maxPrice intent.source
      let profit := intent.maxPrice - listing.price - fees.total
      if MIN_PROFIT_CENTS ≤ profit then
        some { buyIntent := intent, sourceListing := listing,
               estimatedProfit := profit, fees := fees,
               confidence := calculateConfidence intent listing profit,
               estimatedMarketPrice := none }
      else none)

/-- Strategy B (priceless): need at least 2 listings; estimate the market
price as the median of found prices (`prices[Math.floor(prices.length / 2)]`
of the ascending sort), treat listings at or below 75% of it as cheap, and use
the market price as the sell price. -/
def pricelessMatches (intent : BuyIntent) (listings : List SourceListing) :
    List MatchedOpportunity :=
  if listings.length < 2 then []
  else
    let prices := stableSort (fun a b => a < b) (listings.map (fun l => l.price))
    let marketPrice := prices.getD (prices.length / 2) 0
    let cheapThreshold := jsRoundDiv (marketPrice * 3) 4   -- Math.round(marketPrice * 0.75)
    let cheapListings := listings.filter (fun l => l.price ≤ cheapThreshold)
    cheapListings.filterMap (fun listing =>
      let fees := calculateFees marketPrice intent.source
      let profit := marketPrice - listing.price - fees.total
      if MIN_PROFIT_CENTS ≤ profit then
        some { buyIntent := { intent with maxPrice := marketPrice },
               sourceListing := listing, estimatedProfit := profit, fees := fees,
               confidence := calculateConfidence intent listing profit - 10,
               estimatedMarketPrice := some marketPrice }
      else none)

/-- The matches one loop iteration of `findSourcesForIntents` produces for one
intent: none when the search threw, otherwise the strategy selected by
`hasStatedPrice` applied to the processed search results. -/
def intentMatches (ep : String → Option ℤ) (ilu : String → Bool)
    (fetchRes : Except String (List TavilyItem)) (intent : BuyIntent) :
    List MatchedOpportunity :=
  match fetchRes with
  | .error _ => []
  | .ok items =>
    let listings := searchListings ep ilu items
    if intent.hasStatedPrice then pricedMatches intent listings
    else pricelessMatches intent listings

/-- The diagnostic one loop iteration of `findSourcesForIntents` records. -/
def intentDiag (ep : String → Option ℤ) (ilu : String → Bool)
    (fetchRes : Except String (List TavilyItem)) (intent : BuyIntent) :
    SourceDiagnostic :=
  match fetchRes with
  | .error e =>
    { source := "search:" ++ intent.itemWanted.take 30, status := "error",
      itemCount := 0, durationMs := 0, errMsg := some e }
  | .ok items =>
    let listings := searchListings ep ilu items
    if intent.hasStatedPrice then
      { source := "priced:" ++ intent.itemWanted.take 30,
        status := if 0 < listings.length then "success" else "empty",
        itemCount := listings.length, durationMs := 0, errMsg := none }
    else if listings.length < 2 then
      { source := "market:" ++ intent.itemWanted.take 30, status := "empty",
        itemCount := listings.length, durationMs := 0, errMsg := none }
    else
      let prices := stableSort (fun a b => a < b) (listings.map (fun l => l.price))
      let marketPrice := prices.getD (prices.length / 2) 0
      let cheapThreshold := jsRoundDiv (marketPrice * 3) 4
      let cheapListings := listings.filter (fun l => l.price ≤ cheapThreshold)
      { source := "market:" ++ intent.itemWanted.take 30,
        status := if 0 < cheapListings.length then "success" else "empty",
        itemCount := listings.length, durationMs := 0, errMsg := none }

/-- `findSourcesForIntents`: process at most `MAX_INTENTS_TO_SEARCH` intents,
one search each (`fetch i` is the outcome of the i-th Tavily call), collect
matches and diagnostics in loop order, and sort matches by profit descending.
`tavilyCallCount` counts the searches that returned (the source increments its
counter after a successful `await`). -/
def findSourcesForIntents (ep : String → Option ℤ) (ilu : String → Bool)
    (fetch : ℕ → Except String (List TavilyItem)) (intents : List BuyIntent) :
    SourceResult :=
  let top := intents.take MAX_INTENTS_TO_SEARCH
  let raw := (top.enum.map (fun p => intentMatches ep ilu (fetch p.1) p.2)).flatten
  { matched := stableSort (fun a b => b.estimatedProfit < a.estimatedProfit) raw
    diagnostics := top.enum.map (fun p => intentDiag ep ilu (fetch p.1) p.2)
    tavilyCallCount := (top.enum.filter (fun p => (fetch p.1).isOk)).length }

/-! ### Sourcer lemmas -/

theorem jsRoundDiv_nonneg {a b : ℤ} (ha : 0 ≤ a) (hb : 0 < b) :
    0 ≤ jsRoundDiv a b := by
  have h1 : (0:ℤ) ≤ 2 * a + b := by linarith
  have h2 : (0:ℤ) ≤ 2 * b := by linarith
  exact Int.fdiv_nonneg h1 h2

theorem profitBonus_nonneg (s p : ℤ) : 0 ≤ profitBonus s p := by
  unfold profitBonus; split_ifs <;> norm_num

theorem repBonus_nonneg (t : ℤ) : 0 ≤ repBonus t := by
  unfold repBonus; split_ifs <;> norm_num

theorem ageBonus_nonneg (a : ℤ) : 0 ≤ ageBonus a := by
  unfold ageBonus; split_ifs <;> norm_num

theorem marketplaceBonus_nonneg (m : String) : 0 ≤ marketplaceBonus m := by
  unfold marketplaceBonus; split_ifs <;> norm_num

theorem statedBonus_nonneg (b : Bool) : 0 ≤ statedBonus b := by
  unfold statedBonus; split_ifs <;> norm_num

/-- Every bonus block of `calculateConfidence` is non-negative, hence the
pre-clamp score is at least the base 45; with the clamp the result always lies
in `[45, 95]` — in particular the `[15, 95]` clamp range. -/
theorem calculateConfidence_bounds (intent : BuyIntent) (listing : SourceListing)
    (profit : ℤ) :
    45 ≤ calculateConfidence intent listing profit ∧
    calculateConfidence intent listing profit ≤ 95 := by
  unfold calculateConfidence
  refine ⟨?_, min_le_left _ _⟩
  have hsum : (45:ℤ) ≤ 45 +
      profitBonus (if intent.maxPrice = 0 then profit + listing.price else intent.maxPrice) profit +
      repBonus intent.buyerTradeCount + ageBonus intent.postAge +
      marketplaceBonus listing.marketplace + statedBonus intent.hasStatedPrice := by
    have h1 := profitBonus_nonneg (if intent.maxPrice = 0 then profit + listing.price else intent.maxPrice) profit
    have h2 := repBonus_nonneg intent.buyerTradeCount
    have h3 := ageBonus_nonneg intent.postAge
    have h4 := marketplaceBonus_nonneg listing.marketplace
    have h5 := statedBonus_nonneg intent.hasStatedPrice
    linarith
  exact le_min (by norm_num) (le_trans hsum (le_max_right _ _))

theorem lookup_getD_pos {l : List (String × ℤ)} (hl : ∀ p ∈ l, 0 < p.2)
    {d : ℤ} (hd : 0 < d) (s : String) : 0 < (l.lookup s).getD d := by
  induction l with
  | nil => simpa [List.lookup]
  | cons p rest ih =>
    obtain ⟨k, v⟩ := p
    by_cases h : (s == k)
    · have hv : 0 < v := hl (k, v) (List.mem_cons_self _ _)
      simpa [List.lookup, h] using hv
    · have : ∀ q ∈ rest, 0 < q.2 := fun q hq => hl q (List.mem_cons_of_mem _ hq)
      simpa [List.lookup, h] using ih this

/-- The fee total is positive whenever the sell price is non-negative. -/
theorem calculateFees_total_pos {sellPrice : ℤ} (h : 0 ≤ sellPrice) (source : String) :
    0 < (calculateFees sellPrice source).total := by
  unfold calculateFees
  have h1 : 0 ≤ jsRoundDiv (sellPrice * 349) 10000 :=
    jsRoundDiv_nonneg (by positivity) (by norm_num)
  have h2 : 0 < ((SHIPPING_ESTIMATES.lookup source).getD 1500) :=
    lookup_getD_pos (by decide) (by norm_num) source
  simp only
  linarith

/-- Deduplicated output only contains input listings. -/
theorem dedupGo_subset {seen : List (String × ℤ)} {ls : List SourceListing} :
    ∀ x ∈ dedupGo seen ls, x ∈ ls := by
  induction ls generalizing seen with
  | nil => simp [dedupGo]
  | cons l rest ih =>
    intro x hx
    by_cases h : dedupKey l ∈ seen
    · simp only [dedupGo, if_pos h] at hx
      exact List.mem_cons_of_mem _ (ih _ hx)
    · simp only [dedupGo, if_neg h, List.mem_cons] at hx
      rcases hx with rfl | hx
      · exact List.mem_cons_self _ _
      · exact List.mem_cons_of_mem _ (ih _ hx)

/-- Keep-first deduplication: no retained key is in `seen`, and retained keys
are pairwise distinct. -/
theorem dedupGo_spec (seen : List (String × ℤ)) (ls : List SourceListing) :
    (∀ x ∈ dedupGo seen ls, dedupKey x ∉ seen) ∧
    List.Pairwise (fun a b => dedupKey a ≠ dedupKey b) (dedupGo seen ls) := by
  induction ls generalizing seen with
  | nil => simp [dedupGo]
  | cons l rest ih =>
    by_cases h : dedupKey l ∈ seen
    · simpa [dedupGo, h] using ih seen
    · have ih' := ih (dedupKey l :: seen)
      simp only [dedupGo, if_neg h]
      constructor
      · intro x hx
        rcases List.mem_cons.mp hx with rfl | hx
        · exact h
        · intro hxseen
          exact ih'.1 x hx (List.mem_cons_of_mem _ hxseen)
      · refine List.pairwise_cons.mpr ⟨?_, ih'.2⟩
        intro b hb heq
        exact ih'.1 b hb (heq ▸ List.mem_cons_self _ _)

theorem deduplicateListings_pairwise (ls : List SourceListing) :
    List.Pairwise (fun a b => dedupKey a ≠ dedupKey b) (deduplicateListings ls) :=
  (dedupGo_spec [] ls).2

theorem deduplicateListings_subset {ls : List SourceListing} :
    ∀ x ∈ deduplicateListings ls, x ∈ ls :=
  fun x hx => dedupGo_subset x hx

/-- Every listing `searchForItem` returns passed the sanity bounds. -/
theorem searchListings_price_bounds {ep : String → Option ℤ} {ilu : String → Bool}
    {items : List TavilyItem} :
    ∀ l ∈ searchListings ep ilu items, 500 ≤ l.price ∧ l.price ≤ 10000000 := by
  intro l hl
  have hl' := deduplicateListings_subset l hl
  rw [List.mem_filterMap] at hl'
  obtain ⟨r, _, hr⟩ := hl'
  simp only at hr
  split_ifs at hr with h1
  rcases hep : ep (r.title.getD "" ++ " " ++ r.content.getD "") with _ | price <;>
    rw [hep] at hr <;> dsimp only at hr
  · cases hr
  · split_ifs at hr with h2 h3
    have hl2 : l.price = price := by
      have := (Option.some.injEq _ _).mp hr
      rw [← this]
    push_neg at h3
    rw [hl2]
    exact ⟨h3.1, h3.2⟩

/-- Characterisation of a match accepted by the priced strategy. -/
theorem pricedMatches_spec {intent : BuyIntent} {listings : List SourceListing}
    {m : MatchedOpportunity} (h : m ∈ pricedMatches intent listings) :
    m.buyIntent = intent ∧ m.sourceListing ∈ listings ∧
    m.sourceListing.price < intent.maxPrice ∧
    m.fees = calculateFees intent.maxPrice intent.source ∧
    m.estimatedProfit = intent.maxPrice - m.sourceListing.price - m.fees.total ∧
    MIN_PROFIT_CENTS ≤ m.estimatedProfit ∧
    m.confidence = calculateConfidence intent m.sourceListing m.estimatedProfit ∧
    m.estimatedMarketPrice = none := by
  rw [pricedMatches, List.mem_filterMap] at h
  obtain ⟨l, hl, hfl⟩ := h
  dsimp only at hfl
  split_ifs at hfl with h1 h2
  have hm := (Option.some.injEq _ _).mp hfl
  subst hm
  push_neg at h1
  exact ⟨rfl, hl, h1, rfl, rfl, h2, rfl, rfl⟩

/-- Characterisation of a match accepted by the priceless strategy: its
`buyIntent` is the original intent with `maxPrice` overwritten by the estimated
market price (the median of the found prices, which is one of the found
prices). -/
theorem pricelessMatches_spec {intent : BuyIntent} {listings : List SourceListing}
    {m : MatchedOpportunity} (h : m ∈ pricelessMatches intent listings) :
    ∃ marketPrice,
      (∃ l ∈ listings, l.price = marketPrice) ∧
      m.buyIntent = { intent with maxPrice := marketPrice } ∧
      m.sourceListing ∈ listings ∧
      m.fees = calculateFees marketPrice intent.source ∧
      m.estimatedProfit = marketPrice - m.sourceListing.price - m.fees.total ∧
      MIN_PROFIT_CENTS ≤ m.estimatedProfit ∧
      m.confidence =
        calculateConfidence intent m.sourceListing m.estimatedProfit - 10 ∧
      m.estimatedMarketPrice = some marketPrice := by
  rw [pricelessMatches] at h
  split_ifs at h with hlen
  · cases h
  · set prices := stableSort (fun a b => a < b) (listings.map (fun l => l.price)) with hprices
    set marketPrice := prices.getD (prices.length / 2) 0 with hmp
    refine ⟨marketPrice, ?_, ?_⟩
    · -- the median is one of the found prices
      push_neg at hlen
      have hplen : prices.length = listings.length := by
        rw [hprices, (stableSort_perm _ _).length_eq, List.length_map]
      have hlt : prices.length / 2 < prices.length := by
        have : 0 < prices.length := by omega
        exact Nat.div_lt_self this (by norm_num)
      have hmem : marketPrice ∈ prices := by
        rw [hmp, List.getD_eq_getElem prices 0 hlt]
        exact List.getElem_mem hlt
      have : marketPrice ∈ listings.map (fun l => l.price) :=
        mem_stableSort.mp hmem
      rw [List.mem_map] at this
      obtain ⟨l, hl, hl2⟩ := this
      exact ⟨l, hl, hl2⟩
    · rw [List.mem_filterMap] at h
      obtain ⟨l, hl, hfl⟩ := h
      have hl' : l ∈ listings := (List.mem_filter.mp hl).1
      dsimp only at hfl
      split_ifs at hfl with h2
      have hm := (Option.some.injEq _ _).mp hfl
      subst hm
      exact ⟨rfl, hl', rfl, rfl, h2, rfl, rfl⟩

/-- Every match in the sourcer's output arises from one loop iteration. -/
theorem mem_findSources_matched {ep : String → Option ℤ} {ilu : String → Bool}
    {fetch : ℕ → Except String (List TavilyItem)} {intents : List BuyIntent}
    {m : MatchedOpportunity}
    (h : m ∈ (findSourcesForIntents ep ilu fetch intents).matched) :
    ∃ p : ℕ × BuyIntent, m ∈ intentMatches ep ilu (fetch p.1) p.2 := by
  rw [findSourcesForIntents] at h
  dsimp only at h
  rw [mem_stableSort, List.mem_flatten] at h
  obtain ⟨l, hl, hml⟩ := h
  rw [List.mem_map] at hl
  obtain ⟨p, _, rfl⟩ := hl
  exact ⟨p, hml⟩

/-- Every match produced for one intent satisfies the profit/fee/confidence
invariants, with the match's own `buyIntent.maxPrice` being the sell price
(the stated ceiling on the priced path, the estimated market price on the
priceless path). -/
theorem intentMatches_spec {ep : String → Option ℤ} {ilu : String → Bool}
    {fr : Except String (List TavilyItem)} {intent : BuyIntent}
    {m : MatchedOpportunity} (h : m ∈ intentMatches ep ilu fr intent) :
    m.sourceListing.price < m.buyIntent.maxPrice ∧
    m.estimatedProfit = m.buyIntent.maxPrice - m.sourceListing.price - m.fees.total ∧
    MIN_PROFIT_CENTS ≤ m.estimatedProfit ∧
    m.fees = calculateFees m.buyIntent.maxPrice m.buyIntent.source ∧
    (∀ mp, m.estimatedMarketPrice = some mp → m.buyIntent.maxPrice = mp) ∧
    45 ≤ m.confidence + (if m.estimatedMarketPrice = none then 0 else 10) ∧
    m.confidence ≤ 95 := by
  rw [intentMatches.eq_def] at h
  rcases fr with e | items
  · cases h
  · dsimp only at h
    by_cases hs : intent.hasStatedPrice
    · rw [if_pos hs] at h
      obtain ⟨hb, hmem, hlt, hfees, hprofit, hmin, hconf, hmp⟩ := pricedMatches_spec h
      have hbounds := calculateConfidence_bounds intent m.sourceListing m.estimatedProfit
      refine ⟨by rw [hb]; exact hlt, by rw [hb]; exact hprofit, hmin, ?_, ?_, ?_, ?_⟩
      · rw [hb]; exact hfees
      · intro mp hmp'; rw [hmp] at hmp'; cases hmp'
      · rw [hmp, if_pos rfl, add_zero, hconf]; exact hbounds.1
      · rw [hconf]; exact hbounds.2
    · rw [if_neg hs] at h
      obtain ⟨mp, ⟨l0, hl0, hl0p⟩, hb, hmem, hfees, hprofit, hmin, hconf, hmpe⟩ :=
        pricelessMatches_spec h
      have hbp : m.buyIntent.maxPrice = mp := by rw [hb]
      have hbs : m.buyIntent.source = intent.source := by rw [hb]
      have h500 : 500 ≤ l0.price :=
        (searchListings_price_bounds l0 hl0).1
      have hmp0 : 0 ≤ mp := by rw [← hl0p]; linarith
      have htot : 0 < (calculateFees mp intent.source).total :=
        calculateFees_total_pos hmp0 intent.source
      have hbounds := calculateConfidence_bounds intent m.sourceListing m.estimatedProfit
      refine ⟨?_, ?_, hmin, ?_, ?_, ?_, ?_⟩
      · -- profit ≥ MIN > 0 and fees.total > 0 force the listing below the market price
        rw [hbp]
        have : MIN_PROFIT_CENTS ≤ mp - m.sourceListing.price - m.fees.total := by
          rw [← hprofit]; exact hmin
        rw [hfees] at *
        simp only [MIN_PROFIT_CENTS] at this
        linarith
      · rw [hbp, ← hprofit]
      · rw [hbp, hbs, hfees]
      · intro mp' hmp'
        rw [hmpe] at hmp'
        obtain rfl := (Option.some.injEq _ _).mp hmp'
        exact hbp
      · rw [hmpe, if_neg (by simp), hconf]
        linarith [hbounds.1]
      · rw [hconf]; linarith [hbounds.2]

/-! ### Claim theorems — sourcer -/

/-- C1: every `MatchedOpportunity` returned by `findSourcesForIntents`, under
both the priced and the priceless strategy, has its `confidence` inside the
clamp range `[15, 95]`, for arbitrary profit, counterpart-reputation and
posting-freshness inputs (and indeed for arbitrary behaviours of the external
search, `extractPrice` and `isListingUrl`). -/
theorem matched_confidence_in_clamp_range (ep : String → Option ℤ)
    (ilu : String → Bool) (fetch : ℕ → Except String (List TavilyItem))
    (intents : List BuyIntent) (m : MatchedOpportunity)
    (hm : m ∈ (findSourcesForIntents ep ilu fetch intents).matched) :
    15 ≤ m.confidence ∧ m.confidence ≤ 95 := by
  obtain ⟨p, hp⟩ := mem_findSources_matched hm
  obtain ⟨_, _, _, _, _, h45, h95⟩ := intentMatches_spec hp
  refine ⟨?_, h95⟩
  by_cases h : m.estimatedMarketPrice = none <;> simp [h] at h45 <;> linarith

/-- C2: every match is strictly cheaper than the match's buyer ceiling, its
`estimatedProfit` is exactly `sellPrice - listing.price - fees.total` and at
least `MIN_PROFIT_CENTS`, where the sell price (the match's
`buyIntent.maxPrice`) is the stated ceiling on the priced path and the
estimated market price on the priceless path, and the fees are computed from
that sell price. -/
theorem matched_profit_invariant (ep : String → Option ℤ)
    (ilu : String → Bool) (fetch : ℕ → Except String (List TavilyItem))
    (intents : List BuyIntent) (m : MatchedOpportunity)
    (hm : m ∈ (findSourcesForIntents ep ilu fetch intents).matched) :
    m.sourceListing.price < m.buyIntent.maxPrice ∧
    m.estimatedProfit = m.buyIntent.maxPrice - m.sourceListing.price - m.fees.total ∧
    MIN_PROFIT_CENTS ≤ m.estimatedProfit ∧
    m.fees = calculateFees m.buyIntent.maxPrice m.buyIntent.source ∧
    (∀ mp, m.estimatedMarketPrice = some mp → m.buyIntent.maxPrice = mp) := by
  obtain ⟨p, hp⟩ := mem_findSources_matched hm
  obtain ⟨h1, h2, h3, h4, h5, _, _⟩ := intentMatches_spec hp
  exact ⟨h1, h2, h3, h4, h5⟩

/-- C9: within one intent's processing, no two retained matches share the
`(marketplace, price rounded to whole dollars)` key — duplicates collapsed
before matching by `deduplicateListings`. -/
theorem perIntent_matches_distinct_keys (ep : String → Option ℤ)
    (ilu : String → Bool) (fr : Except String (List TavilyItem))
    (intent : BuyIntent) :
    List.Pairwise
      (fun m1 m2 => dedupKey m1.sourceListing ≠ dedupKey m2.sourceListing)
      (intentMatches ep ilu fr intent) := by
  rw [intentMatches.eq_def]
  rcases fr with e | items
  · exact List.Pairwise.nil
  · dsimp only
    have hpl : List.Pairwise (fun a b => dedupKey a ≠ dedupKey b)
        (searchListings ep ilu items) := by
      unfold searchListings
      exact deduplicateListings_pairwise _
    by_cases hs : intent.hasStatedPrice
    · rw [if_pos hs, pricedMatches]
      refine List.pairwise_filterMap.mpr (List.Pairwise.imp ?_ hpl)
      intro a b hab x hx y hy
      have hxa : x.sourceListing = a := by
        dsimp only at hx
        rw [Option.mem_def] at hx
        split_ifs at hx
        obtain rfl := (Option.some.injEq _ _).mp hx
        rfl
      have hyb : y.sourceListing = b := by
        dsimp only at hy
        rw [Option.mem_def] at hy
        split_ifs at hy
        obtain rfl := (Option.some.injEq _ _).mp hy
        rfl
      rw [hxa, hyb]; exact hab
    · rw [if_neg hs, pricelessMatches]
      split_ifs with hlen
      · exact List.Pairwise.nil
      · dsimp only
        refine List.pairwise_filterMap.mpr
          (List.Pairwise.imp ?_ (List.Pairwise.filter _ hpl))
        intro a b hab x hx y hy
        have hxa : x.sourceListing = a := by
          rw [Option.mem_def] at hx
          split_ifs at hx
          obtain rfl := (Option.some.injEq _ _).mp hx
          rfl
        have hyb : y.sourceListing = b := by
          rw [Option.mem_def] at hy
          split_ifs at hy
          obtain rfl := (Option.some.injEq _ _).mp hy
          rfl
        rw [hxa, hyb]; exact hab

/-! ### Concrete scenario data (Scenario A and witnesses) -/

/-- Scenario A buyer: $800 stated ceiling on r/hardwareswap. -/
def scenIntent : BuyIntent :=
  { title := "[USA-CA] [H] PayPal [W] GPU", itemWanted := "GPU",
    maxPrice := 80000, hasStatedPrice := true, location := "USA-CA",
    buyerUsername := "buyer1", buyerTradeCount := 25,
    source := "r/hardwareswap", postUrl := "https://reddit.com/r/hardwareswap/comments/1abcde/p",
    postAge := 3, created := 0 }

/-- Scenario A source listing: $600 on eBay. -/
def scenListing : SourceListing :=
  { title := "GPU listing", price := 60000,
    url := "https://www.ebay.com/itm/1", marketplace := "eBay" }

/-- Expected Scenario A fees: `round(80000 * 0.0349) + 49 = 2841` PayPal,
1500 shipping for r/hardwareswap. -/
def scenFees : FeeBreakdown := { paypalFee := 2841, shippingCost := 1500, total := 4341 }

/-- Expected Scenario A match. -/
def scenMatch : MatchedOpportunity :=
  { buyIntent := scenIntent, sourceListing := scenListing,
    estimatedProfit := 15659, fees := scenFees, confidence := 87,
    estimatedMarketPrice := none }

/-- C8: Scenario A, computed on the embedding.  The fee function takes only
the sell price and the intent's venue — the listing (buy) price is not an
input to `calculateFees` at all — and on the $800/$600 scenario it yields
`paypalFee = round(80000 * 0.0349) + 49 = 2841`,
`total = paypalFee + shipping`, shipping defaulting to 1500 for an
unrecognised venue, and the produced match has
`estimatedProfit = 80000 - 60000 - fees.total`. -/
theorem scenarioA_fees_and_profit :
    (calculateFees 80000 "r/hardwareswap").paypalFee =
      jsRoundDiv (80000 * 349) 10000 + 49 ∧
    calculateFees 80000 "r/hardwareswap" = scenFees ∧
    scenFees.total = scenFees.paypalFee + scenFees.shippingCost ∧
    (calculateFees 80000 "craigslist-sfbay").shippingCost = 1500 ∧
    (calculateFees 80000 "craigslist-sfbay").paypalFee = 2841 ∧
    pricedMatches scenIntent [scenListing] = [scenMatch] ∧
    scenMatch.estimatedProfit = 80000 - 60000 - scenFees.total := by decide

/-! ### Witness data: a full concrete sourcer run -/

def witIlu : String → Bool := fun _ => true

def witIntent : BuyIntent :=
  { title := "[WTB] RTX 3080 $500", itemWanted := "RTX 3080",
    maxPrice := 50000, hasStatedPrice := true, location := "unknown",
    buyerUsername := "unknown", buyerTradeCount := 0,
    source := "r/hardwareswap",
    postUrl := "https://reddit.com/r/hardwareswap/comments/1abcde/wtb_rtx",
    postAge := 24, created := 0 }

def witItem : TavilyItem :=
  { url := "https://www.ebay.com/itm/12345", title := some "RTX 3080",
    content := some "$300.00 listing", publishedDate := none }

def witFetch : ℕ → Except String (List TavilyItem) := fun _ => .ok [witItem]

def witMatch : MatchedOpportunity :=
  { buyIntent := witIntent,
    sourceListing := { title := "RTX 3080", price := 30000,
                       url := "https://www.ebay.com/itm/12345", marketplace := "eBay" },
    estimatedProfit := 16706,
    fees := { paypalFee := 1794, shippingCost := 1500, total := 3294 },
    confidence := 82,
    estimatedMarketPrice := none }

set_option maxRecDepth 40000 in
theorem matched_confidence_in_clamp_range_witness :
    witMatch ∈ (findSourcesForIntents specExtractPrice witIlu witFetch [witIntent]).matched ∧
    15 ≤ witMatch.confidence ∧ witMatch.confidence ≤ 95 :=
  ⟨by decide,
   matched_confidence_in_clamp_range specExtractPrice witIlu witFetch [witIntent]
     witMatch (by decide)⟩

set_option maxRecDepth 40000 in
theorem matched_profit_invariant_witness :
    witMatch ∈ (findSourcesForIntents specExtractPrice witIlu witFetch [witIntent]).matched ∧
    witMatch.sourceListing.price < witMatch.buyIntent.maxPrice ∧
    witMatch.estimatedProfit =
      witMatch.buyIntent.maxPrice - witMatch.sourceListing.price - witMatch.fees.total ∧
    MIN_PROFIT_CENTS ≤ witMatch.estimatedProfit ∧
    witMatch.fees = calculateFees witMatch.buyIntent.maxPrice witMatch.buyIntent.source ∧
    (∀ mp, witMatch.estimatedMarketPrice = some mp → witMatch.buyIntent.maxPrice = mp) :=
  ⟨by decide,
   matched_profit_invariant specExtractPrice witIlu witFetch [witIntent]
     witMatch (by decide)⟩

/-! ### Harvester string utilities

The harvester classifies and normalises Reddit post titles with a handful of
regexes; they are modelled here as explicit scanners over character lists.
Regex `.` is modelled as matching any character (search-result titles are
single-line).  Fuel arguments (always instantiated with the input length)
only serve termination: every step consumes at least one character. -/

/-- Case-insensitive literal-prefix test (`pat` given lower-cased). -/
def ciIsPrefix (pat : List Char) (cs : List Char) : Bool :=
  pat.isPrefixOf (cs.map Char.toLower)

/-- `\w` word characters. -/
def isWordChar (c : Char) : Bool := c.isAlpha || c.isDigit || c = '_'

/-- Remove bracket groups: `replace(/\[.*?\]/g, '')` — at each `[`, drop up to
the first following `]` (a newline blocks the lazy dot). -/
def afterCloseBracket : List Char → Option (List Char)
  | [] => none
  | c :: t => if c = ']' then some t else if c = '\n' then none else afterCloseBracket t

def stripBracketsGo : ℕ → List Char → List Char
  | 0, cs => cs
  | _ + 1, [] => []
  | fuel + 1, c :: rest =>
    if c = '[' then
      match afterCloseBracket rest with
      | some rest' => stripBracketsGo fuel rest'
      | none => c :: stripBracketsGo fuel rest
    else c :: stripBracketsGo fuel rest

def stripBrackets (cs : List Char) : List Char := stripBracketsGo cs.length cs

/-- Remove dollar amounts: `replace(/\$[\d,.]+/g, '')`. -/
def stripDollarAmountsGo : ℕ → List Char → List Char
  | 0, cs => cs
  | _ + 1, [] => []
  | fuel + 1, c :: rest =>
    if c = '$' then
      let run := rest.takeWhile (fun d => d.isDigit || d = ',' || d = '.')
      if run.isEmpty then c :: stripDollarAmountsGo fuel rest
      else stripDollarAmountsGo fuel (rest.drop run.length)
    else c :: stripDollarAmountsGo fuel rest

def stripDollarAmounts (cs : List Char) : List Char :=
  stripDollarAmountsGo cs.length cs

/-- One alternative of an alternation: attempts a match at the current
position and returns the rest of the input on success. -/
def altLit (pat : String) (cs : List Char) : Option (List Char) :=
  if ciIsPrefix pat.toList cs then some (cs.drop pat.length) else none

/-- `local\s*cash`. -/
def altLocalCash (cs : List Char) : Option (List Char) :=
  match altLit "local" cs with
  | some rest => altLit "cash" (rest.dropWhile isJsSpace)
  | none => none

/-- `goods\s*(?:&|and)\s*services`. -/
def altGoodsAndServices (cs : List Char) : Option (List Char) :=
  match altLit "goods" cs with
  | none => none
  | some r1 =>
    let r2 := r1.dropWhile isJsSpace
    match (match altLit "&" r2 with
           | some r => some r
           | none => altLit "and" r2) with
    | none => none
    | some r3 => altLit "services" (r3.dropWhile isJsSpace)

/-- `\$[\d,.]+` as an alternative. -/
def altDollarRun (cs : List Char) : Option (List Char) :=
  match cs with
  | '$' :: rest =>
    let run := rest.takeWhile (fun d => d.isDigit || d = ',' || d = '.')
    if run.isEmpty then none else some (rest.drop run.length)
  | _ => none

/-- Global replace of an ordered alternation by the empty string. -/
def stripAltsGo (alts : List (List Char → Option (List Char))) :
    ℕ → List Char → List Char
  | 0, cs => cs
  | _ + 1, [] => []
  | fuel + 1, c :: rest =>
    match alts.firstM (fun alt => alt (c :: rest)) with
    | some remaining => stripAltsGo alts fuel remaining
    | none => c :: stripAltsGo alts fuel rest

def stripAlts (alts : List (List Char → Option (List Char))) (cs : List Char) :
    List Char :=
  stripAltsGo alts cs.length cs

/-- `replace(/paypal|cash|venmo|zelle|local\s*cash/gi, '')` (title path). -/
def stripPayWordsTitle (cs : List Char) : List Char :=
  stripAlts [altLit "paypal", altLit "cash", altLit "venmo", altLit "zelle",
             altLocalCash] cs

/-- `replace(/paypal|cash|venmo|zelle|money|local|g&s|goods\s*(?:&|and)\s*services|\$[\d,.]+/gi, '')`
(the `[W]`-section cleaning pass). -/
def stripPayWordsWant (cs : List Char) : List Char :=
  stripAlts [altLit "paypal", altLit "cash", altLit "venmo", altLit "zelle",
             altLit "money", altLit "local", altLit "g&s", altGoodsAndServices,
             altDollarRun] cs

/-- `/paypal|cash|venmo|zelle|money|\$/i.test(s)` — payment indicator. -/
def hasPaymentWord (cs : List Char) : Bool :=
  containsSub "paypal".toList (cs.map Char.toLower) ||
  containsSub "cash".toList (cs.map Char.toLower) ||
  containsSub "venmo".toList (cs.map Char.toLower) ||
  containsSub "zelle".toList (cs.map Char.toLower) ||
  containsSub "money".toList (cs.map Char.toLower) ||
  cs.contains '$'

/-- `replace(/,?\s*local.*$/i, '')`: truncate at the first position where an
optional comma, optional whitespace and the word `local` begin. -/
def matchLocalSuffixAt (cs : List Char) : Bool :=
  let afterComma := match cs with
    | ',' :: t => t
    | _ => cs
  ciIsPrefix "local".toList (afterComma.dropWhile isJsSpace)

def stripLocalSuffix : List Char → List Char
  | [] => []
  | c :: rest =>
    if matchLocalSuffixAt (c :: rest) then [] else c :: stripLocalSuffix rest

/-- `/\[([A-Z]{2,3}-[A-Z]{2})\]/i` capture attempt right after a `[`. -/
def tryLocBracket (cs : List Char) : Option (List Char) :=
  let r1 := cs.takeWhile Char.isAlpha
  if r1.length = 2 ∨ r1.length = 3 then
    match cs.drop r1.length with
    | '-' :: a :: b :: ']' :: _ =>
      if a.isAlpha && b.isAlpha then some (r1 ++ ['-', a, b]) else none
    | _ => none
  else none

def scanLocBracket : List Char → Option (List Char)
  | [] => none
  | c :: rest =>
    if c = '[' then
      match tryLocBracket rest with
      | some g => some g
      | none => scanLocBracket rest
    else scanLocBracket rest

/-- `/\[(USA?|CAN|UK|EU)\]/i` capture attempt right after a `[` (ordered
alternation: `USA` before `US`). -/
def tryCountry (cs : List Char) : Option (List Char) :=
  if ciIsPrefix "usa]".toList cs then some (cs.take 3)
  else if ciIsPrefix "us]".toList cs then some (cs.take 2)
  else if ciIsPrefix "can]".toList cs then some (cs.take 3)
  else if ciIsPrefix "uk]".toList cs then some (cs.take 2)
  else if ciIsPrefix "eu]".toList cs then some (cs.take 2)
  else none

def scanCountry : List Char → Option (List Char)
  | [] => none
  | c :: rest =>
    if c = '[' then
      match tryCountry rest with
      | some g => some g
      | none => scanCountry rest
    else scanCountry rest

/-- `extractLocation` from `harvester.ts`. -/
def extractLocation (title : String) : String :=
  match scanLocBracket title.toList with
  | some g => (g.map Char.toUpper).asString
  | none =>
    match scanCountry title.toList with
    | some g => (g.map Char.toUpper).asString
    | none => "unknown"

/-! ### `[H]`/`[W]` title parsing (harvester.ts `parseHWFormat`) -/

structure ParsedHW where
  location : String
  itemWanted : String
  maxPrice : Option ℤ
deriving DecidableEq, Repr

/-- Find the first `[w]` (case-insensitive), returning (text before, text
after). -/
def splitAtW : List Char → Option (List Char × List Char)
  | [] => none
  | c :: rest =>
    if ciIsPrefix "[w]".toList (c :: rest) then some ([], rest.drop 2)
    else
      match splitAtW rest with
      | some (before, after) => some (c :: before, after)
      | none => none

/-- Leftmost match of `/\[H\]\s*(.*?)\s*\[W\]\s*(.*)/i`: the first `[h]` that
has a `[w]` after it; returns the text between and the text after. -/
def parseHWSplit : List Char → Option (List Char × List Char)
  | [] => none
  | c :: rest =>
    if ciIsPrefix "[h]".toList (c :: rest) then
      match splitAtW (rest.drop 2) with
      | some (between, after) => some (between, after)
      | none => parseHWSplit rest
    else parseHWSplit rest

/-- `parseHWFormat` from `harvester.ts` (`ep` models the imported
`extractPrice`). -/
def parseHWFormat (ep : String → Option ℤ) (title : String) : Option ParsedHW :=
  match parseHWSplit title.toList with
  | none => none
  | some (between, after) =>
    let haveSection := jsTrim between
    let wantSection := jsTrim after
    -- [H] must contain payment indicator (PayPal, Cash, $, etc.)
    if ¬ hasPaymentWord haveSection then none
    else
      -- [W] must NOT be primarily payment words — that means a SELL post
      let wantPayment := hasPaymentWord wantSection
      let wantClean :=
        jsTrim ((stripPayWordsWant (stripBrackets wantSection)).filter (fun c => c ≠ ','))
      if wantPayment ∧ wantClean.length < 3 then none
      else
        let price := ep haveSection.asString
        let itemWanted := jsTrim (stripLocalSuffix (stripBrackets wantSection))
        if itemWanted.length < 3 then none
        else
          some { location := extractLocation title,
                 itemWanted := (itemWanted.take 150).asString, maxPrice := price }

/-! ### Reddit post id parsing and freshness filter (harvester.ts) -/

/-- Base-36 digit for JS `parseInt(s, 36)` (all ASCII letters are valid). -/
def isBase36Digit (c : Char) : Bool := c.isDigit || c.isAlpha

def base36Val (c : Char) : ℕ :=
  if c.isDigit then c.toNat - 48 else c.toLower.toNat - 97 + 10

/-- JS `parseInt(cs, 36)` on a `\w+` capture: parse the longest valid prefix;
`none` models `NaN` (no valid leading digit, e.g. a leading `_`). -/
def parseInt36 (cs : List Char) : Option ℕ :=
  let ds := cs.takeWhile isBase36Digit
  if ds.isEmpty then none
  else some (ds.foldl (fun acc c => acc * 36 + base36Val c) 0)

/-- First `/comments/(\w+)` capture of a URL (a `/comments/` not followed by a
word character is skipped, as regex backtracking does). -/
def findCommentsRun : List Char → Option (List Char)
  | [] => none
  | c :: rest =>
    if "/comments/".toList.isPrefixOf (c :: rest) then
      let run := ((c :: rest).drop 10).takeWhile isWordChar
      if run.isEmpty then findCommentsRun rest else some run
    else findCommentsRun rest

/-- `redditPostNumericId`: 0 when the URL has no `/comments/(\w+)`, otherwise
`parseInt(match[1], 36)` — `none` models the `NaN` result JS produces when the
captured run starts with `_`. -/
def redditPostNumericId (url : String) : Option ℕ :=
  match findCommentsRun url.toList with
  | none => some 0
  | some run => parseInt36 run

def MAX_ID_DISTANCE : ℕ := 100000000

/-- Maximum parsed id over the batch (`if (id > maxId) maxId = id`; a `NaN`
comparison is false and never updates the maximum). -/
def maxRedditId (intents : List BuyIntent) : ℕ :=
  intents.foldl (fun m i =>
    match redditPostNumericId i.postUrl with
    | some id => if m < id then id else m
    | none => m) 0

/-- The per-intent filter body: `id === 0` is rejected, otherwise keep when
`maxId - id <= MAX_ID_DISTANCE` (for a `NaN` id the JS comparison is false). -/
def keepRecent (maxId : ℕ) (i : BuyIntent) : Bool :=
  match redditPostNumericId i.postUrl with
  | none => false
  | some id => if id = 0 then false else maxId - id ≤ MAX_ID_DISTANCE

/-- `filterByRedditId` from `harvester.ts`: empty input returned as is; if no
id parsed (`maxId === 0`) the whole batch is returned unfiltered; otherwise
keep the intents within the id window. -/
def filterByRedditId (intents : List BuyIntent) : List BuyIntent :=
  if intents.isEmpty then intents
  else
    let maxId := maxRedditId intents
    if maxId = 0 then intents
    else intents.filter (keepRecent maxId)

/-! ### Tavily result parsing (harvester.ts `parseTavilyResult`) -/

/-- First `reddit\.com\/r\/(\w+)` capture of a URL. -/
def findSubreddit : List Char → Option (List Char)
  | [] => none
  | c :: rest =>
    if "reddit.com/r/".toList.isPrefixOf (c :: rest) then
      let run := ((c :: rest).drop 13).takeWhile isWordChar
      if run.isEmpty then findSubreddit rest else some run
    else findSubreddit rest

/-- JS falsiness of the running `maxPrice` variable (`null` or `0`). -/
def jsFalsyPrice : Option ℤ → Bool
  | none => true
  | some p => p = 0

/-- Post age (hours) and created timestamp (seconds): defaults 24h ago;
overridden when `published_date` parses to a valid time (`parseDate` models
`new Date(s).getTime()` with `none` for an invalid date, `now` models
`Date.now()`, both in milliseconds). -/
def postTiming (parseDate : String → Option ℤ) (now : ℤ)
    (pd : Option String) : ℤ × ℤ :=
  match pd with
  | none => (24, Int.fdiv now 1000 - 24 * 3600)
  | some s =>
    match parseDate s with
    | none => (24, Int.fdiv now 1000 - 24 * 3600)
    | some t => (max 0 (jsRoundDiv (now - t) 3600000), Int.fdiv t 1000)

/-- The price-extraction chain of `parseTavilyResult`: `[H]`-section price
(with JS truthiness: a 0 from the HW parse is not taken), then
`extractPrice(title)`, then the body scan — each attempted only while the
running value is still falsy (`null` or `0`). -/
def hwPriceTruthy (hwResult : Option ParsedHW) : Option ℤ :=
  match hwResult with
  | some hw =>
    match hw.maxPrice with
    | some p => if p = 0 then none else some p  -- hwResult?.maxPrice truthy test
    | none => none
  | none => none

def priceChain (ep : String → Option ℤ) (hwResult : Option ParsedHW)
    (title content : String) : Option ℤ :=
  let m2 : Option ℤ :=
    if jsFalsyPrice (hwPriceTruthy hwResult) then ep title else hwPriceTruthy hwResult
  if jsFalsyPrice m2 ∧ 0 < content.length then extractBestPriceFromBody content
  else m2

/-- `parseTavilyResult` from `harvester.ts`. -/
def parseTavilyResult (ep : String → Option ℤ) (parseDate : String → Option ℤ)
    (now : ℤ) (r : TavilyItem) : Option BuyIntent :=
  let title := r.title.getD ""
  let content := r.content.getD ""
  match findSubreddit r.url.toList with
  | none => none
  | some sub =>
    let hwResult := parseHWFormat ep title
    let isWTB := containsInsens "[wtb]" title
    if hwResult = none ∧ ¬ isWTB then none
    else
      let itemWanted : List Char :=
        match hwResult with
        | some hw => hw.itemWanted.toList
        | none =>
          jsTrim (stripPayWordsTitle (stripDollarAmounts (stripBrackets title.toList)))
      if itemWanted.length < 3 then none
      else
        let m3 : Option ℤ := priceChain ep hwResult title content
        let hasStatedPrice := match m3 with | some p => decide (0 < p) | none => false
        let timing := postTiming parseDate now r.publishedDate
        some { title := title, itemWanted := (itemWanted.take 150).asString,
               maxPrice := m3.getD 0,     -- maxPrice || 0
               hasStatedPrice := hasStatedPrice,
               location := extractLocation title,
               buyerUsername := "unknown", buyerTradeCount := 0,
               source := "r/" ++ sub.asString, postUrl := r.url,
               postAge := timing.1, created := timing.2 }

/-! ### Harvest (harvester.ts `harvestBuyIntents`) -/

structure HarvestResult where
  intents : List BuyIntent
  diagnostics : List SourceDiagnostic
  tavilyCallCount : ℕ
deriving DecidableEq, Repr

def MIN_PRICE_CENTS : ℤ := 2500

/-- The six Tavily harvest queries' labels. -/
def HARVEST_LABELS : List String :=
  ["hardwareswap", "mechmarket", "appleswap+photomarket", "AVexchange+gamesale",
   "Pen_Swap+comicswap+Knife_Swap", "watchexchange+vinylcollectors+homelabsales"]

/-- The inner result loop of one harvest query: reject non-Reddit URLs,
deduplicate by URL across the whole harvest (`seen` threads through), parse,
and enforce the stated-price minimum.  Returns the retained intents, the
updated seen set, and the retained count. -/
def collectIntents (ep : String → Option ℤ) (parseDate : String → Option ℤ)
    (now : ℤ) : List TavilyItem → List String → List BuyIntent × List String × ℕ
  | [], seen => ([], seen, 0)
  | r :: rest, seen =>
    if ¬ containsSub "reddit.com".toList r.url.toList then
      collectIntents ep parseDate now rest seen
    else if r.url ∈ seen then collectIntents ep parseDate now rest seen
    else
      let seen1 := r.url :: seen
      match parseTavilyResult ep parseDate now r with
      | none => collectIntents ep parseDate now rest seen1
      | some intent =>
        -- If they stated a price, enforce minimum
        if intent.hasStatedPrice ∧ intent.maxPrice < MIN_PRICE_CENTS then
          collectIntents ep parseDate now rest seen1
        else
          let res := collectIntents ep parseDate now rest seen1
          (intent :: res.1, res.2.1, res.2.2 + 1)

/-- One harvest query step (the `try`/`catch` body of the query loop):
accumulates intents, diagnostics, the Tavily call counter and the seen-URL
set. -/
def harvestStep (ep : String → Option ℤ) (parseDate : String → Option ℤ) (now : ℤ)
    (acc : List BuyIntent × List SourceDiagnostic × ℕ × List String)
    (q : String × Except String (List TavilyItem)) :
    List BuyIntent × List SourceDiagnostic × ℕ × List String :=
  match q.2 with
  | .error e =>
    (acc.1,
     acc.2.1 ++ [{ source := q.1, status := "error", itemCount := 0,
                   durationMs := 0, errMsg := some e }],
     acc.2.2.1, acc.2.2.2)
  | .ok results =>
    let col := collectIntents ep parseDate now results acc.2.2.2
    (acc.1 ++ col.1,
     acc.2.1 ++ [{ source := q.1,
                   status := if 0 < col.2.2 then "success" else "empty",
                   itemCount := col.2.2, durationMs := 0, errMsg := none }],
     acc.2.2.1 + 1, col.2.1)

/-- All six queries, in order (`fetch i` is the outcome of query `i`). -/
def harvestCollect (ep : String → Option ℤ) (parseDate : String → Option ℤ)
    (now : ℤ) (fetch : ℕ → Except String (List TavilyItem)) :
    List BuyIntent × List SourceDiagnostic × ℕ × List String :=
  (HARVEST_LABELS.enum).foldl
    (fun acc p => harvestStep ep parseDate now acc (p.2, fetch p.1))
    ([], [], 0, [])

/-- The final ordering: stated-price posts first, then by price descending
(the strict "comes before" relation of the source's comparator). -/
def intentBefore (a b : BuyIntent) : Bool :=
  (a.hasStatedPrice && !b.hasStatedPrice) ||
  ((a.hasStatedPrice == b.hasStatedPrice) && decide (b.maxPrice < a.maxPrice))

/-- `harvestBuyIntents`: run all queries, filter stale posts once over the
combined batch, and sort. -/
def harvestBuyIntents (ep : String → Option ℤ) (parseDate : String → Option ℤ)
    (now : ℤ) (fetch : ℕ → Except String (List TavilyItem)) : HarvestResult :=
  let col := harvestCollect ep parseDate now fetch
  let freshIntents := filterByRedditId col.1
  { intents := stableSort intentBefore freshIntents,
    diagnostics := col.2.1, tavilyCallCount := col.2.2.1 }

/-! ### Harvester lemmas -/

theorem le_foldl_max {l : List ℤ} {a c : ℤ} (ha : c ≤ a) (hl : ∀ x ∈ l, c ≤ x) :
    c ≤ l.foldl max a := by
  induction l generalizing a with
  | nil => simpa using ha
  | cons x xs ih =>
    refine ih (le_trans ha (le_max_left a x)) ?_
    exact fun y hy => hl y (List.mem_cons_of_mem _ hy)

/-- Body-extracted prices are at least $15 (1500 cents): everything kept by
the plausibility filter is, and the result is the maximum of kept values. -/
theorem extractBestPriceFromBody_pos {s : String} {p : ℤ}
    (h : extractBestPriceFromBody s = some p) : 1500 ≤ p := by
  rw [extractBestPriceFromBody] at h
  set prices := (scanDollars (s.toList.take 2000)).filterMap (fun v? =>
    match v? with
    | some c => if 1500 ≤ c ∧ c < 5000000 then some c else none
    | none => none) with hprices
  have hall : ∀ x ∈ prices, (1500:ℤ) ≤ x := by
    intro x hx
    rw [hprices, List.mem_filterMap] at hx
    obtain ⟨v, _, hv⟩ := hx
    match v with
    | none => cases hv
    | some c =>
      dsimp only at hv
      split_ifs at hv with hc
      · obtain rfl := (Option.some.injEq _ _).mp hv
        exact hc.1
  match hpr : prices with
  | [] => simp at h
  | p0 :: ps =>
    dsimp only at h
    obtain rfl := (Option.some.injEq _ _).mp h
    refine le_foldl_max ?_ ?_
    · exact hall p0 (List.mem_cons_self _ _)
    · exact fun x hx => hall x (List.mem_cons_of_mem _ hx)

/-- The spec-modelled `extractPrice` only returns positive (≥ $15) amounts —
the spec's "discarding amounts outside a sane absolute range". -/
theorem specExtractPrice_pos {s : String} {p : ℤ}
    (h : specExtractPrice s = some p) : 0 < p :=
  lt_of_lt_of_le (by norm_num) (extractBestPriceFromBody_pos h)

/-- The price recorded by `parseHWFormat` is an `extractPrice` result on the
`[H]` section. -/
theorem parseHWFormat_maxPrice {ep : String → Option ℤ} {title : String}
    {hw : ParsedHW} (h : parseHWFormat ep title = some hw) :
    ∃ s, hw.maxPrice = ep s := by
  rw [parseHWFormat] at h
  rcases hsplit : parseHWSplit title.toList with _ | ⟨between, after⟩ <;>
    rw [hsplit] at h
  · cases h
  · dsimp only at h
    split_ifs at h
    obtain rfl := (Option.some.injEq _ _).mp h
    exact ⟨(jsTrim between).asString, rfl⟩

/-- The `[H]`-section price passes JS truthiness only when positive, given a
positive-only `extractPrice`. -/
theorem hwPriceTruthy_pos {ep : String → Option ℤ} {hwResult : Option ParsedHW}
    (hp : ∀ s q, ep s = some q → 0 < q)
    (hhw : ∀ hw, hwResult = some hw → ∃ s, hw.maxPrice = ep s) :
    ∀ q, hwPriceTruthy hwResult = some q → 0 < q := by
  intro q hq
  rw [hwPriceTruthy.eq_def] at hq
  rcases hw? : hwResult with _ | hw <;> rw [hw?] at hq <;> dsimp only at hq
  · cases hq
  · rcases hmx : hw.maxPrice with _ | p0 <;> rw [hmx] at hq <;> dsimp only at hq
    · cases hq
    · split_ifs at hq
      have hpq := (Option.some.injEq _ _).mp hq
      obtain ⟨s, hs⟩ := hhw hw hw?
      rw [hmx] at hs
      have := hp s p0 hs.symm
      omega

/-- The price chain only yields positive values when `extractPrice` does. -/
theorem priceChain_pos {ep : String → Option ℤ} {hwResult : Option ParsedHW}
    {title content : String} {p : ℤ}
    (hp : ∀ s q, ep s = some q → 0 < q)
    (hhw : ∀ hw, hwResult = some hw → ∃ s, hw.maxPrice = ep s)
    (h : priceChain ep hwResult title content = some p) : 0 < p := by
  rw [priceChain.eq_def] at h
  dsimp only at h
  split_ifs at h <;>
    first
      | exact lt_of_lt_of_le (by norm_num) (extractBestPriceFromBody_pos h)
      | exact hp _ p h
      | exact hwPriceTruthy_pos hp hhw p h

/-- Every intent built by `parseTavilyResult` satisfies the price invariant,
provided `extractPrice` only returns positive amounts (the spec-modelled
behaviour). -/
theorem parseTavilyResult_price_invariant {ep parseDate : String → Option ℤ}
    {now : ℤ} {r : TavilyItem} {intent : BuyIntent}
    (hp : ∀ s p, ep s = some p → 0 < p)
    (h : parseTavilyResult ep parseDate now r = some intent) :
    0 ≤ intent.maxPrice ∧ (intent.hasStatedPrice = false ↔ intent.maxPrice = 0) := by
  rw [parseTavilyResult] at h
  rcases hsub : findSubreddit r.url.toList with _ | sub <;> rw [hsub] at h
  · cases h
  · dsimp only at h
    split_ifs at h
    have hpos : ∀ q, priceChain ep (parseHWFormat ep (r.title.getD ""))
        (r.title.getD "") (r.content.getD "") = some q → 0 < q :=
      fun q hq => priceChain_pos hp (fun hw hhw => parseHWFormat_maxPrice hhw) hq
    obtain rfl := (Option.some.injEq _ _).mp h
    rcases hm3 : priceChain ep (parseHWFormat ep (r.title.getD ""))
        (r.title.getD "") (r.content.getD "") with _ | p
    · simp [hm3]
    · have hpp := hpos p hm3
      simp only [hm3, Option.getD_some]
      constructor
      · exact le_of_lt hpp
      · constructor
        · intro hfalse
          simp at hfalse
          omega
        · intro h0
          omega

/-- Every intent retained by the inner harvest loop is a `parseTavilyResult`
output that passed the stated-price minimum. -/
theorem collectIntents_spec {ep parseDate : String → Option ℤ} {now : ℤ} :
    ∀ (items : List TavilyItem) (seen : List String),
      ∀ i ∈ (collectIntents ep parseDate now items seen).1,
        (∃ r, parseTavilyResult ep parseDate now r = some i) ∧
        ¬ (i.hasStatedPrice = true ∧ i.maxPrice < MIN_PRICE_CENTS) := by
  intro items
  induction items with
  | nil => intro seen i hi; simp [collectIntents] at hi
  | cons r rest ih =>
    intro seen i hi
    rw [collectIntents.eq_def] at hi
    dsimp only at hi
    by_cases h1 : ¬ containsSub "reddit.com".toList r.url.toList = true
    · rw [if_pos h1] at hi; exact ih seen i hi
    · rw [if_neg h1] at hi
      by_cases h2 : r.url ∈ seen
      · rw [if_pos h2] at hi; exact ih seen i hi
      · rw [if_neg h2] at hi
        rcases hpr : parseTavilyResult ep parseDate now r with _ | intent <;>
          rw [hpr] at hi <;> dsimp only at hi
        · exact ih _ i hi
        · by_cases h3 : intent.hasStatedPrice = true ∧ intent.maxPrice < MIN_PRICE_CENTS
          · rw [if_pos h3] at hi; exact ih _ i hi
          · rw [if_neg h3] at hi
            dsimp only at hi
            rcases List.mem_cons.mp hi with rfl | hi'
            · exact ⟨⟨r, hpr⟩, h3⟩
            · exact ih _ i hi'

/-- The same property, over the whole query fold. -/
theorem harvestCollect_spec {ep parseDate : String → Option ℤ} {now : ℤ}
    {fetch : ℕ → Except String (List TavilyItem)} :
    ∀ i ∈ (harvestCollect ep parseDate now fetch).1,
      (∃ r, parseTavilyResult ep parseDate now r = some i) ∧
      ¬ (i.hasStatedPrice = true ∧ i.maxPrice < MIN_PRICE_CENTS) := by
  rw [harvestCollect]
  generalize HARVEST_LABELS.enum = qs
  have hstep : ∀ (qs' : List (ℕ × String))
      (acc : List BuyIntent × List SourceDiagnostic × ℕ × List String),
      (∀ i ∈ acc.1,
        (∃ r, parseTavilyResult ep parseDate now r = some i) ∧
        ¬ (i.hasStatedPrice = true ∧ i.maxPrice < MIN_PRICE_CENTS)) →
      ∀ i ∈ (qs'.foldl (fun acc p => harvestStep ep parseDate now acc (p.2, fetch p.1)) acc).1,
        (∃ r, parseTavilyResult ep parseDate now r = some i) ∧
        ¬ (i.hasStatedPrice = true ∧ i.maxPrice < MIN_PRICE_CENTS) := by
    intro qs'
    induction qs' with
    | nil => intro acc hacc i hi; exact hacc i hi
    | cons q rest ih =>
      intro acc hacc i hi
      rw [List.foldl_cons] at hi
      refine ih _ ?_ i hi
      intro j hj
      rw [harvestStep.eq_def] at hj
      rcases hfq : fetch q.1 with e | results <;> rw [hfq] at hj <;> dsimp only at hj
      · exact hacc j hj
      · rcases List.mem_append.mp hj with hj' | hj'
        · exact hacc j hj'
        · exact collectIntents_spec results acc.2.2.2 j hj'
  intro i hi
  exact hstep qs ([], [], 0, []) (by simp) i hi

/-- Membership in the final harvest output implies membership in the combined
collected batch. -/
theorem mem_harvest_intents {ep parseDate : String → Option ℤ} {now : ℤ}
    {fetch : ℕ → Except String (List TavilyItem)} {i : BuyIntent}
    (hi : i ∈ (harvestBuyIntents ep parseDate now fetch).intents) :
    i ∈ (harvestCollect ep parseDate now fetch).1 := by
  rw [harvestBuyIntents] at hi
  dsimp only at hi
  rw [mem_stableSort] at hi
  rw [filterByRedditId] at hi
  dsimp only at hi
  split_ifs at hi
  · exact hi
  · exact hi
  · exact (List.mem_filter.mp hi).1

/-! ### Claim theorems — harvester invariants -/

/-- C3: every harvested intent has a non-negative `maxPrice`, and
`hasStatedPrice` is false exactly when `maxPrice` is 0.  `extractPrice` is not
part of the artifact; the hypothesis `hp` states the spec-modelled behaviour
(only positive in-range amounts are returned), satisfied by
`specExtractPrice`. -/
theorem harvested_price_invariant (ep parseDate : String → Option ℤ) (now : ℤ)
    (fetch : ℕ → Except String (List TavilyItem))
    (hp : ∀ s p, ep s = some p → 0 < p) :
    ∀ i ∈ (harvestBuyIntents ep parseDate now fetch).intents,
      0 ≤ i.maxPrice ∧ (i.hasStatedPrice = false ↔ i.maxPrice = 0) := by
  intro i hi
  obtain ⟨⟨r, hr⟩, _⟩ := harvestCollect_spec i (mem_harvest_intents hi)
  exact parseTavilyResult_price_invariant hp hr

/-- C10: every harvested intent that carries a stated price is at least
`MIN_PRICE_CENTS` ($25) — stated-price postings below the floor are silently
discarded by the harvest loop, while price-unstated postings are exempt. -/
theorem harvested_stated_price_floor (ep parseDate : String → Option ℤ) (now : ℤ)
    (fetch : ℕ → Except String (List TavilyItem)) :
    ∀ i ∈ (harvestBuyIntents ep parseDate now fetch).intents,
      i.hasStatedPrice = true → MIN_PRICE_CENTS ≤ i.maxPrice := by
  intro i hi hstated
  obtain ⟨_, hmin⟩ := harvestCollect_spec i (mem_harvest_intents hi)
  push_neg at hmin
  exact hmin hstated

/-! ### Witness data: a full concrete harvest run -/

def wParseDate : String → Option ℤ := fun _ => none
def wNow : ℤ := 0

def wHItemA : TavilyItem :=
  { url := "https://reddit.com/r/hardwareswap/comments/1000000/wtb_rtx",
    title := some "[WTB] RTX 3080 $500", content := some "", publishedDate := none }

def wHItemB : TavilyItem :=
  { url := "https://reddit.com/r/hardwareswap/comments/zzzzzz/wtb_cable",
    title := some "[WTB] HDMI cable bundle", content := some "", publishedDate := none }

def wHFetch : ℕ → Except String (List TavilyItem) :=
  fun i => if i = 0 then .ok [wHItemA, wHItemB] else .ok []

/-- The stated-price intent the harvest run above produces. -/
def wIntentA : BuyIntent :=
  { title := "[WTB] RTX 3080 $500", itemWanted := "RTX 3080", maxPrice := 50000,
    hasStatedPrice := true, location := "unknown", buyerUsername := "unknown",
    buyerTradeCount := 0, source := "r/hardwareswap",
    postUrl := "https://reddit.com/r/hardwareswap/comments/1000000/wtb_rtx",
    postAge := 24, created := -86400 }

/-- The price-unstated intent the harvest run above produces. -/
def wIntentB : BuyIntent :=
  { title := "[WTB] HDMI cable bundle", itemWanted := "HDMI cable bundle",
    maxPrice := 0, hasStatedPrice := false, location := "unknown",
    buyerUsername := "unknown", buyerTradeCount := 0, source := "r/hardwareswap",
    postUrl := "https://reddit.com/r/hardwareswap/comments/zzzzzz/wtb_cable",
    postAge := 24, created := -86400 }

set_option maxRecDepth 40000 in
theorem harvested_price_invariant_witness :
    wIntentA ∈ (harvestBuyIntents specExtractPrice wParseDate wNow wHFetch).intents ∧
    0 ≤ wIntentA.maxPrice ∧
    (wIntentA.hasStatedPrice = false ↔ wIntentA.maxPrice = 0) :=
  ⟨by decide,
   harvested_price_invariant specExtractPrice wParseDate wNow wHFetch
     (fun _ _ h => specExtractPrice_pos h) wIntentA (by decide)⟩

set_option maxRecDepth 40000 in
theorem harvested_stated_price_floor_witness :
    wIntentA ∈ (harvestBuyIntents specExtractPrice wParseDate wNow wHFetch).intents ∧
    wIntentA.hasStatedPrice = true ∧ MIN_PRICE_CENTS ≤ wIntentA.maxPrice ∧
    wIntentB ∈ (harvestBuyIntents specExtractPrice wParseDate wNow wHFetch).intents ∧
    wIntentB.hasStatedPrice = false ∧ wIntentB.maxPrice = 0 :=
  ⟨by decide, rfl,
   harvested_stated_price_floor specExtractPrice wParseDate wNow wHFetch
     wIntentA (by decide) rfl,
   by decide, rfl, rfl⟩

/-! ### Claim C4/C5 data and theorems — freshness filter -/

/-- A posting whose URL id parses to exactly `MAX_ID_DISTANCE`
(`"1njchs"` in base 36 is 100000000). -/
def cxIntentHigh : BuyIntent :=
  { wIntentA with
    postUrl := "https://reddit.com/r/hardwareswap/comments/1njchs/a" }

/-- A posting whose URL id parses to 0 (`"0"`), lagging `cxIntentHigh` by
exactly the window. -/
def cxIntentZero : BuyIntent :=
  { wIntentB with
    postUrl := "https://reddit.com/r/hardwareswap/comments/0/b" }

set_option maxRecDepth 4000 in
/-- C4 counterexample: in the batch `[cxIntentHigh, cxIntentZero]` the maximum
parsable id is exactly `MAX_ID_DISTANCE`, so `cxIntentZero` lags the maximum
by exactly the window — yet it is excluded, because its parsed id 0 is
conflated with the filter's unparsable sentinel (`id === 0`). -/
theorem freshness_boundary_counterexample :
    redditPostNumericId cxIntentZero.postUrl =
      some (maxRedditId [cxIntentHigh, cxIntentZero] - MAX_ID_DISTANCE) ∧
    maxRedditId [cxIntentHigh, cxIntentZero] = MAX_ID_DISTANCE ∧
    cxIntentZero ∉ filterByRedditId [cxIntentHigh, cxIntentZero] := by decide

/-- C4 (amended): provided the lag-by-window id is nonzero (equivalently the
batch maximum exceeds the window), a posting lagging the maximum by exactly
`MAX_ID_DISTANCE` is retained and one lagging by one more unit is excluded;
and the harvest applies the filter exactly once, to the combined batch of all
venue queries, before sorting. -/
theorem freshness_boundary_amended :
    (∀ (l : List BuyIntent) (i j : BuyIntent), i ∈ l → j ∈ l →
       MAX_ID_DISTANCE < maxRedditId l →
       redditPostNumericId i.postUrl = some (maxRedditId l - MAX_ID_DISTANCE) →
       redditPostNumericId j.postUrl = some (maxRedditId l - MAX_ID_DISTANCE - 1) →
       i ∈ filterByRedditId l ∧ j ∉ filterByRedditId l) ∧
    (∀ (ep parseDate : String → Option ℤ) (now : ℤ)
       (fetch : ℕ → Except String (List TavilyItem)),
       (harvestBuyIntents ep parseDate now fetch).intents =
         stableSort intentBefore
           (filterByRedditId (harvestCollect ep parseDate now fetch).1)) := by
  constructor
  · intro l i j hi hj hM hidi hidj
    have hne : ¬ l.isEmpty := by
      cases l with
      | nil => cases hi
      | cons a as => simp
    have hmax0 : ¬ maxRedditId l = 0 := by omega
    have hfil : filterByRedditId l = l.filter (keepRecent (maxRedditId l)) := by
      rw [filterByRedditId]
      dsimp only
      rw [if_neg (by simpa using hne), if_neg hmax0]
    constructor
    · rw [hfil, List.mem_filter]
      refine ⟨hi, ?_⟩
      rw [keepRecent.eq_def, hidi]
      dsimp only
      rw [if_neg (by omega)]
      simp only [decide_eq_true_eq]
      omega
    · rw [hfil]
      intro hjf
      have hk := (List.mem_filter.mp hjf).2
      rw [keepRecent.eq_def, hidj] at hk
      dsimp only at hk
      by_cases h0 : maxRedditId l - MAX_ID_DISTANCE - 1 = 0
      · rw [if_pos h0] at hk; cases hk
      · rw [if_neg h0] at hk
        simp only [decide_eq_true_eq] at hk
        omega
  · intro ep parseDate now fetch
    rfl

def cAmTop : BuyIntent :=
  { wIntentA with
    postUrl := "https://reddit.com/r/hardwareswap/comments/11njchs/a" }

def cAmMid : BuyIntent :=
  { wIntentA with
    postUrl := "https://reddit.com/r/hardwareswap/comments/1000000/b" }

def cAmLow : BuyIntent :=
  { wIntentB with
    postUrl := "https://reddit.com/r/hardwareswap/comments/zzzzzz/c" }

set_option maxRecDepth 4000 in
theorem freshness_boundary_amended_witness :
    cAmMid ∈ filterByRedditId [cAmTop, cAmMid, cAmLow] ∧
    cAmLow ∉ filterByRedditId [cAmTop, cAmMid, cAmLow] :=
  freshness_boundary_amended.1 [cAmTop, cAmMid, cAmLow] cAmMid cAmLow
    (by decide) (by decide) (by decide) (by decide) (by decide)

/-- A posting whose URL contains no parsable `/comments/<id>` identifier. -/
def cxUnparsed : BuyIntent :=
  { wIntentB with postUrl := "https://example.com/post/abc" }

set_option maxRecDepth 4000 in
/-- C5 counterexample: in a batch where no posting's identifier parses
(`maxId === 0`), `filterByRedditId` returns the batch unchanged — the
unparsable posting is retained (assumed fresh), not discarded. -/
theorem unparsable_retained_counterexample :
    findCommentsRun cxUnparsed.postUrl.toList = none ∧
    filterByRedditId [cxUnparsed] = [cxUnparsed] := by decide

/-- C5 (amended): whenever at least one posting's identifier parses to a
nonzero value (`maxId ≠ 0`), every intent retained by the freshness filter has
a parsable, nonzero identifier — unparsable postings are silently dropped.  In
a batch where no identifier parses, the filter instead returns the batch
unchanged. -/
theorem retained_intents_have_parsable_ids (l : List BuyIntent)
    (h : maxRedditId l ≠ 0) :
    ∀ i ∈ filterByRedditId l, ∃ id, redditPostNumericId i.postUrl = some id ∧ id ≠ 0 := by
  intro i hi
  rw [filterByRedditId] at hi
  split_ifs at hi with h1
  · rw [List.isEmpty_iff] at h1; subst h1; cases hi
  · have hi2 : i ∈ (if maxRedditId l = 0 then l
        else l.filter (keepRecent (maxRedditId l))) := hi
    rw [if_neg h] at hi2
    have hk := (List.mem_filter.mp hi2).2
    rcases hid : redditPostNumericId i.postUrl with _ | id
    · rw [keepRecent.eq_def, hid] at hk; cases hk
    · rw [keepRecent.eq_def, hid] at hk
      dsimp only at hk
      by_cases h0 : id = 0
      · rw [if_pos h0] at hk; cases hk
      · exact ⟨id, rfl, h0⟩

set_option maxRecDepth 4000 in
theorem retained_intents_have_parsable_ids_witness :
    maxRedditId [cAmTop, cxUnparsed] ≠ 0 ∧
    (∀ i ∈ filterByRedditId [cAmTop, cxUnparsed],
      ∃ id, redditPostNumericId i.postUrl = some id ∧ id ≠ 0) :=
  ⟨by decide, retained_intents_have_parsable_ids [cAmTop, cxUnparsed] (by decide)⟩

/-! ### Runner data model (runner.ts, `@/lib` collaborators)

`JSON.parse` is a JS builtin; its output domain is modelled by `Json`, and the
parse function itself is a parameter of the embedding (`none` models a thrown
`SyntaxError`).  `Json.undef` models `undefined`, which field normalisation
can introduce (`JSON.parse` itself never produces it). -/

inductive Json where
  | null : Json
  | bool : Bool → Json
  | num : ℤ → Json
  | str : String → Json
  | arr : List Json → Json
  | obj : List (String × Json) → Json
  | undef : Json

/-- JS property access `o.k`: throws on `null`/`undefined`, yields the field
on objects (last duplicate wins, as in `JSON.parse`), `undefined` (modelled
`none`) otherwise. -/
def getField : Json → String → Except Unit (Option Json)
  | Json.null, _ => .error ()
  | Json.undef, _ => .error ()
  | Json.obj fields, k => .ok ((fields.reverse.lookup k))
  | _, _ => .ok none

/-- JS truthiness of a field-access result. -/
def truthy : Option Json → Bool
  | none => false
  | some Json.null => false
  | some Json.undef => false
  | some (Json.bool b) => b
  | some (Json.num n) => ¬ n = 0
  | some (Json.str s) => ¬ s.isEmpty
  | some (Json.arr _) => true
  | some (Json.obj _) => true

def isNum : Option Json → Bool
  | some (Json.num _) => true
  | _ => false

/-- The validation filter of `parseOpportunities`:
`o.title && typeof o.buyPrice === 'number' && typeof o.sellPrice === 'number'
&& o.buySource && o.sellSource` — the property accesses throw for a
`null`/`undefined` entry. -/
def entryValid (o : Json) : Except Unit Bool := do
  let t ← getField o "title"
  if ¬ truthy t then return false
  else
    let bp ← getField o "buyPrice"
    if ¬ isNum bp then return false
    else
      let sp ← getField o "sellPrice"
      if ¬ isNum sp then return false
      else
        let bs ← getField o "buySource"
        if ¬ truthy bs then return false
        else
          let ss ← getField o "sellSource"
          return truthy ss

/-- Set a field (the spread-with-override of the normalisation map). -/
def setField (o : Json) (k : String) (v : Json) : Json :=
  match o with
  | Json.obj fields => Json.obj (fields.filter (fun p => p.1 ≠ k) ++ [(k, v)])
  | _ => o

/-- The normalisation map applied to each valid entry:
`sellPriceType: o.sellPriceType || 'verified'`, `buyerUsername` falsy →
`undefined`, `buyerTradeCount`/`postAge` non-number → `undefined`. -/
def normalizeOpp (o : Json) : Json :=
  let spt := (getField o "sellPriceType").toOption.getD none
  let bu := (getField o "buyerUsername").toOption.getD none
  let btc := (getField o "buyerTradeCount").toOption.getD none
  let pa := (getField o "postAge").toOption.getD none
  let o1 := setField o "sellPriceType"
    (if truthy spt then spt.getD Json.undef else Json.str "verified")
  let o2 := setField o1 "buyerUsername"
    (if truthy bu then bu.getD Json.undef else Json.undef)
  let o3 := setField o2 "buyerTradeCount"
    (if isNum btc then btc.getD Json.undef else Json.undef)
  setField o3 "postAge" (if isNum pa then pa.getD Json.undef else Json.undef)

/-- `parsed.filter(...).map(...)` with exception propagation: a thrown
property access aborts the whole construction (caught by the caller's
`try`). -/
def collectValid : List Json → Except Unit (List Json)
  | [] => .ok []
  | o :: rest =>
    match entryValid o with
    | .error e => .error e
    | .ok b =>
      match collectValid rest with
      | .error e => .error e
      | .ok tail => .ok (if b then normalizeOpp o :: tail else tail)

/-- Substring split: the text after the first occurrence of `pat`. -/
def afterFirstPat (pat : List Char) : List Char → Option (List Char)
  | [] => none
  | c :: rest =>
    if pat.isPrefixOf (c :: rest) then some ((c :: rest).drop pat.length)
    else afterFirstPat pat rest

/-- Substring split: the text strictly before the first occurrence of `pat`. -/
def beforeFirstPat (pat : List Char) : List Char → Option (List Char)
  | [] => none
  | c :: rest =>
    if pat.isPrefixOf (c :: rest) then some []
    else
      match beforeFirstPat pat rest with
      | some pre => some (c :: pre)
      | none => none

/-- The delimiter extraction
`/<opportunities>\s*([\s\S]*?)\s*<\/opportunities>/`: the content between the
first `<opportunities>` and the next `</opportunities>` after it, with
surrounding whitespace trimmed; `none` when the delimiter pair is absent. -/
def extractDelimited (text : String) : Option String :=
  match afterFirstPat "<opportunities>".toList text.toList with
  | none => none
  | some rest =>
    match beforeFirstPat "</opportunities>".toList rest with
    | none => none
    | some inner => some (jsTrim inner).asString

/-! ### Claude response model and `parseOpportunities` -/

structure ContentBlock where
  type : String
  text : Option String
deriving DecidableEq, Repr

structure ClaudeUsage where
  input_tokens : ℕ
  output_tokens : ℕ
deriving DecidableEq, Repr

structure ClaudeResponse where
  usage : ClaudeUsage
  content : List ContentBlock
deriving DecidableEq, Repr

/-- The concatenated text of the response's text blocks. -/
def responseText (response : ClaudeResponse) : String :=
  String.intercalate "\n"
    ((response.content.filter (fun b => b.type = "text")).map (fun b => b.text.getD ""))

/-- `parseOpportunities` from `runner.ts`: absent delimiter, malformed JSON
(`jsonParse` = `none`), a non-array, or a throwing entry access each yield
`[]`; otherwise the entries passing field validation, normalised. -/
def parseOpportunities (jsonParse : String → Option Json)
    (response : ClaudeResponse) : List Json :=
  match extractDelimited (responseText response) with
  | none => []
  | some block =>
    match jsonParse block with
    | none => []
    | some (Json.arr entries) =>
      match collectValid entries with
      | .ok opps => opps
      | .error _ => []
    | some _ => []

/-! ### Runner (runner.ts `runBuyerIntentPipeline`)

The pipeline is modelled as a pure function of a `PipelineEnv` holding the
outcome of every external interaction, returning the `BuyerIntentResult`
together with the run's observable effects (generative-capability calls and
recorded usage).  The 60-second timer only emits a progress event and does not
alter control flow, so it has no counterpart here; `estimateCost` (from
`@/lib/budget`, not in the artifact) is a parameter, and all costs are in
units of $0.001 (one Tavily call = 1). -/

structure BudgetStatus where
  allowed : Bool
  used : ℤ
  limit : ℤ
deriving DecidableEq, Repr

structure ScoutStats where
  intentsFound : ℕ
  intentsSearched : ℕ
  matchesFound : ℕ
  tavilySearches : ℕ
  sourcesChecked : List String
  diagnostics : List SourceDiagnostic
deriving DecidableEq, Repr

structure BuyerIntentResult where
  success : Bool
  opportunities : List Json
  reasoning : String
  searchedKeys : Option (List String)
  totalInputTokens : ℕ
  totalOutputTokens : ℕ
  totalToolCalls : ℕ
  estimatedCost : ℤ          -- $0.001 units
  error : Option String
  abortReason : Option String
  scoutStats : Option ScoutStats

structure RunEffects where
  claudeCalls : ℕ
  usageRecords : List (String × ℕ × ℕ)
deriving DecidableEq, Repr

def noEffects : RunEffects := { claudeCalls := 0, usageRecords := [] }

structure PipelineEnv where
  ep : String → Option ℤ
  ilu : String → Bool
  parseDate : String → Option ℤ
  now : ℤ
  harvestFetch : ℕ → Except String (List TavilyItem)
  sourceFetch : ℕ → Except String (List TavilyItem)
  budgetOutcome : Except String BudgetStatus
  claudeOutcome : Except String ClaudeResponse
  recordOutcome : Except String Unit
  jsonParse : String → Option Json
  estimateCost : ℕ → ℕ → ℤ

/-- `extractReasoning`: the concatenated text blocks. -/
def extractReasoning (response : ClaudeResponse) : String := responseText response

/-- Whitespace runs replaced by `-` (the `replace(/\s+/g, '-')` of
`intentKey`). -/
def collapseSpacesGo : Bool → List Char → List Char
  | _, [] => []
  | inRun, c :: rest =>
    if isJsSpace c then
      if inRun then collapseSpacesGo true rest
      else '-' :: collapseSpacesGo true rest
    else c :: collapseSpacesGo false rest

/-- `intentKey` from `runner.ts`: stable key for cross-run deduplication. -/
def intentKey (intent : BuyIntent) : String :=
  intent.source ++ ":" ++ intent.buyerUsername ++ ":" ++
    (collapseSpacesGo false ((intent.itemWanted.toList.take 60).map Char.toLower)).asString

/-- Phase 1 output. -/
def pipelineHarvest (env : PipelineEnv) : HarvestResult :=
  harvestBuyIntents env.ep env.parseDate env.now env.harvestFetch

/-- Harvested intents minus the previously-searched ones. -/
def pipelineFresh (env : PipelineEnv) (excludeKeys : List String) : List BuyIntent :=
  if excludeKeys ≠ [] then
    (pipelineHarvest env).intents.filter
      (fun i => ¬ excludeKeys.contains (intentKey i))
  else (pipelineHarvest env).intents

/-- Phase 2 output. -/
def pipelineSource (env : PipelineEnv) (excludeKeys : List String) : SourceResult :=
  findSourcesForIntents env.ep env.ilu env.sourceFetch (pipelineFresh env excludeKeys)

/-- The `catch` branch of the runner: a failed `BuyerIntentResult` carrying
the thrown message. -/
def failureResult (inTok outTok : ℕ) (cost : ℤ) (e : String) : BuyerIntentResult :=
  { success := false, opportunities := [], reasoning := "", searchedKeys := none,
    totalInputTokens := inTok, totalOutputTokens := outTok, totalToolCalls := 0,
    estimatedCost := cost, error := some e, abortReason := none, scoutStats := none }

/-- Phase 3 (budget check, Claude verification, parsing); only reached when
matches exist. -/
def phase3 (env : PipelineEnv) (excl : List String) : BuyerIntentResult × RunEffects :=
  let harvest := pipelineHarvest env
  let sourceRes := pipelineSource env excl
  let fresh := pipelineFresh env excl
  let searchCount := min fresh.length 14
  let searchedKeys := (fresh.take searchCount).map intentKey
  let totalTavily : ℤ := (harvest.tavilyCallCount : ℤ) + (sourceRes.tavilyCallCount : ℤ)
  match env.budgetOutcome with
  | .error e => (failureResult 0 0 (env.estimateCost 0 0) e, noEffects)
  | .ok budget =>
    if ¬ budget.allowed then
      ({ success := false, opportunities := [], reasoning := "",
         searchedKeys := none, totalInputTokens := 0, totalOutputTokens := 0,
         totalToolCalls := 0, estimatedCost := totalTavily, error := none,
         abortReason := some ("Daily token budget exceeded (" ++
           toString budget.used ++ " / " ++ toString budget.limit ++ ")"),
         scoutStats := none }, noEffects)
    else
      match env.claudeOutcome with
      | .error e =>
        (failureResult 0 0 (env.estimateCost 0 0) e,
         { claudeCalls := 1, usageRecords := [] })
      | .ok response =>
        let inTok := response.usage.input_tokens
        let outTok := response.usage.output_tokens
        match env.recordOutcome with
        | .error e =>
          (failureResult inTok outTok (env.estimateCost inTok outTok) e,
           { claudeCalls := 1, usageRecords := [] })
        | .ok _ =>
          let opportunities := parseOpportunities env.jsonParse response
          ({ success := true, opportunities := opportunities,
             reasoning := extractReasoning response,
             searchedKeys := some searchedKeys,
             totalInputTokens := inTok, totalOutputTokens := outTok,
             totalToolCalls := 1,
             estimatedCost := env.estimateCost inTok outTok + totalTavily,
             error := none, abortReason := none,
             scoutStats := some
               { intentsFound := harvest.intents.length,
                 intentsSearched := searchCount,
                 matchesFound := sourceRes.matched.length,
                 tavilySearches := harvest.tavilyCallCount + sourceRes.tavilyCallCount,
                 sourcesChecked :=
                   (harvest.diagnostics ++ sourceRes.diagnostics).map (fun d => d.source),
                 diagnostics := harvest.diagnostics ++ sourceRes.diagnostics } },
           { claudeCalls := 1, usageRecords := [("buyer-intent", inTok, outTok)] })

/-- `runBuyerIntentPipeline` from `runner.ts`. -/
def runBuyerIntentPipeline (env : PipelineEnv) (excludeKeys : List String) :
    BuyerIntentResult × RunEffects :=
  let harvest := pipelineHarvest env
  let fresh := pipelineFresh env excludeKeys
  let skippedCount := harvest.intents.length - fresh.length
  if fresh.isEmpty then
    ({ success := true, opportunities := [],
       reasoning :=
         if 0 < skippedCount then
           "All " ++ toString harvest.intents.length ++
           " buy-intent posts were already searched in previous runs. New posts will appear as Reddit refreshes."
         else "No buy-intent posts found in any subreddit within the 72h window.",
       searchedKeys := none, totalInputTokens := 0, totalOutputTokens := 0,
       totalToolCalls := 0, estimatedCost := (harvest.tavilyCallCount : ℤ),
       error := none, abortReason := none,
       scoutStats := some
         { intentsFound := harvest.intents.length, intentsSearched := 0,
           matchesFound := 0, tavilySearches := harvest.tavilyCallCount,
           sourcesChecked := harvest.diagnostics.map (fun d => d.source),
           diagnostics := harvest.diagnostics } }, noEffects)
  else
    let sourceRes := pipelineSource env excludeKeys
    let searchCount := min fresh.length 14
    let searchedKeys := (fresh.take searchCount).map intentKey
    if sourceRes.matched.isEmpty then
      ({ success := true, opportunities := [],
         reasoning := "Searched " ++ toString searchCount ++
           " buy intents — source prices were at or above buyer prices after fees.",
         searchedKeys := some searchedKeys, totalInputTokens := 0,
         totalOutputTokens := 0, totalToolCalls := 0,
         estimatedCost := (harvest.tavilyCallCount : ℤ) + (sourceRes.tavilyCallCount : ℤ),
         error := none, abortReason := none,
         scoutStats := some
           { intentsFound := harvest.intents.length,
             intentsSearched := searchCount, matchesFound := 0,
             tavilySearches := harvest.tavilyCallCount + sourceRes.tavilyCallCount,
             sourcesChecked :=
               (harvest.diagnostics ++ sourceRes.diagnostics).map (fun d => d.source),
             diagnostics := harvest.diagnostics ++ sourceRes.diagnostics } },
       noEffects)
    else phase3 env excludeKeys

/-! ### Runner lemmas and claim theorems -/

/-- When every entry fails validation (or a property access throws), the
filter-and-map yields nothing or the exception aborts it. -/
theorem collectValid_no_valid {xs : List Json}
    (h : ∀ o ∈ xs, ¬ entryValid o = .ok true) :
    collectValid xs = .ok [] ∨ ∃ e, collectValid xs = .error e := by
  induction xs with
  | nil => left; rfl
  | cons o rest ih =>
    rcases hv : entryValid o with e | b
    · right
      refine ⟨e, ?_⟩
      rw [collectValid.eq_def]
      dsimp only
      rw [hv]
    · have hb : b = false := by
        cases b
        · rfl
        · exact absurd hv (h o (List.mem_cons_self _ _))
      subst hb
      rcases ih (fun o' ho' => h o' (List.mem_cons_of_mem _ ho')) with h0 | ⟨e, he⟩
      · left
        rw [collectValid.eq_def]
        dsimp only
        rw [hv, h0]
        rfl
      · right
        refine ⟨e, ?_⟩
        rw [collectValid.eq_def]
        dsimp only
        rw [hv, he]

/-- The four malformation cases each leave the opportunity list empty. -/
theorem parseOpportunities_empty {jp : String → Option Json}
    {resp : ClaudeResponse}
    (hbad :
      extractDelimited (responseText resp) = none ∨
      (∀ block, extractDelimited (responseText resp) = some block →
        jp block = none) ∨
      (∀ block v, extractDelimited (responseText resp) = some block →
        jp block = some v → ∀ xs, v ≠ Json.arr xs) ∨
      (∀ block xs, extractDelimited (responseText resp) = some block →
        jp block = some (Json.arr xs) → ∀ o ∈ xs, ¬ entryValid o = .ok true)) :
    parseOpportunities jp resp = [] := by
  rw [parseOpportunities.eq_def]
  rcases hd : extractDelimited (responseText resp) with _ | block
  · rfl
  · dsimp only
    rcases hbad with hA | hB | hC | hD
    · rw [hd] at hA; cases hA
    · rw [hB block hd]
    · rcases hjp : jp block with _ | v
      · rfl
      · rcases v with _ | b | n | s | xs | fields | _
        · rfl
        · rfl
        · rfl
        · rfl
        · exact absurd rfl (hC block (Json.arr xs) hd hjp xs)
        · rfl
        · rfl
    · rcases hjp : jp block with _ | v
      · rfl
      · rcases v with _ | b | n | s | xs | fields | _
        · rfl
        · rfl
        · rfl
        · rfl
        · dsimp only
          rcases collectValid_no_valid (hD block xs hd hjp) with h0 | ⟨e, he⟩
          · rw [h0]
          · rw [he]
        · rfl
        · rfl

/-- C6: if the pipeline reaches the pre-verification budget check and the
check returns `allowed = false`, the run returns `success = false` with a
populated `abortReason`, makes zero calls to the generative capability and
records no token usage (all token counters zero). -/
theorem budget_denied_aborts_run (env : PipelineEnv) (excl : List String)
    (budget : BudgetStatus)
    (hfresh : ¬ (pipelineFresh env excl).isEmpty = true)
    (hmatch : ¬ (pipelineSource env excl).matched.isEmpty = true)
    (hb : env.budgetOutcome = .ok budget)
    (hallow : budget.allowed = false) :
    (runBuyerIntentPipeline env excl).1.success = false ∧
    (runBuyerIntentPipeline env excl).1.abortReason.isSome = true ∧
    (runBuyerIntentPipeline env excl).2.claudeCalls = 0 ∧
    (runBuyerIntentPipeline env excl).2.usageRecords = [] ∧
    (runBuyerIntentPipeline env excl).1.totalInputTokens = 0 ∧
    (runBuyerIntentPipeline env excl).1.totalOutputTokens = 0 := by
  have hrun : runBuyerIntentPipeline env excl = phase3 env excl := by
    rw [runBuyerIntentPipeline]
    dsimp only
    rw [if_neg hfresh, if_neg hmatch]
  rw [hrun, phase3]
  dsimp only
  rw [hb]
  dsimp only
  rw [if_pos (by rw [hallow]; exact Bool.false_ne_true)]
  exact ⟨rfl, rfl, rfl, rfl, rfl, rfl⟩

/-- C7: if the run reaches verification and the generative response's text
lacks the delimiter pair, or the delimited block is malformed JSON, or decodes
to a non-array, or only contains entries missing required fields, the run
still succeeds (`success = true`) with an empty opportunity list. -/
theorem malformed_verification_yields_empty (env : PipelineEnv)
    (excl : List String) (budget : BudgetStatus) (resp : ClaudeResponse)
    (hfresh : ¬ (pipelineFresh env excl).isEmpty = true)
    (hmatch : ¬ (pipelineSource env excl).matched.isEmpty = true)
    (hb : env.budgetOutcome = .ok budget)
    (hallow : budget.allowed = true)
    (hc : env.claudeOutcome = .ok resp)
    (hrec : env.recordOutcome = .ok ())
    (hbad :
      extractDelimited (responseText resp) = none ∨
      (∀ block, extractDelimited (responseText resp) = some block →
        env.jsonParse block = none) ∨
      (∀ block v, extractDelimited (responseText resp) = some block →
        env.jsonParse block = some v → ∀ xs, v ≠ Json.arr xs) ∨
      (∀ block xs, extractDelimited (responseText resp) = some block →
        env.jsonParse block = some (Json.arr xs) →
        ∀ o ∈ xs, ¬ entryValid o = .ok true)) :
    (runBuyerIntentPipeline env excl).1.opportunities = [] ∧
    (runBuyerIntentPipeline env excl).1.success = true := by
  have hrun : runBuyerIntentPipeline env excl = phase3 env excl := by
    rw [runBuyerIntentPipeline]
    dsimp only
    rw [if_neg hfresh, if_neg hmatch]
  rw [hrun, phase3]
  dsimp only
  rw [hb]
  dsimp only
  rw [if_neg (by rw [hallow]; simp)]
  rw [hc]
  dsimp only
  rw [hrec]
  dsimp only
  exact ⟨parseOpportunities_empty hbad, rfl⟩

/-! ### Witness data: concrete pipeline runs -/

def wBudgetDenied : BudgetStatus := { allowed := false, used := 5000000, limit := 1000000 }
def wBudgetOk : BudgetStatus := { allowed := true, used := 0, limit := 1000000 }

/-- An environment whose harvest and source phases succeed with matches and
whose budget check denies. -/
def wEnvC6 : PipelineEnv :=
  { ep := specExtractPrice, ilu := witIlu, parseDate := wParseDate, now := 0,
    harvestFetch := wHFetch, sourceFetch := witFetch,
    budgetOutcome := .ok wBudgetDenied,
    claudeOutcome := .error "not called", recordOutcome := .ok (),
    jsonParse := fun _ => none, estimateCost := fun _ _ => 0 }

set_option maxRecDepth 100000 in
theorem budget_denied_aborts_run_witness :
    (runBuyerIntentPipeline wEnvC6 []).1.success = false ∧
    (runBuyerIntentPipeline wEnvC6 []).1.abortReason.isSome = true ∧
    (runBuyerIntentPipeline wEnvC6 []).2.claudeCalls = 0 ∧
    (runBuyerIntentPipeline wEnvC6 []).2.usageRecords = [] ∧
    (runBuyerIntentPipeline wEnvC6 []).1.totalInputTokens = 0 ∧
    (runBuyerIntentPipeline wEnvC6 []).1.totalOutputTokens = 0 :=
  budget_denied_aborts_run wEnvC6 [] wBudgetDenied (by decide) (by decide) rfl rfl

/-- A verification response with no `<opportunities>` delimiter. -/
def wRespNoTags : ClaudeResponse :=
  { usage := { input_tokens := 100, output_tokens := 50 },
    content := [{ type := "text", text := some "I could not verify these matches." }] }

/-- Like `wEnvC6` but with the budget allowed and a delimiter-free response. -/
def wEnvC7 : PipelineEnv :=
  { wEnvC6 with budgetOutcome := .ok wBudgetOk, claudeOutcome := .ok wRespNoTags }

set_option maxRecDepth 100000 in
theorem malformed_verification_yields_empty_witness :
    (runBuyerIntentPipeline wEnvC7 []).1.opportunities = [] ∧
    (runBuyerIntentPipeline wEnvC7 []).1.success = true :=
  malformed_verification_yields_empty wEnvC7 [] wBudgetOk wRespNoTags
    (by decide) (by decide) rfl rfl rfl rfl (Or.inl (by decide))
